import Mathlib

/-!
A shallow embedding of the DVRP greedy simulator (`dvrpsim.py`) and of the
VNS-style metaheuristic optimizer (`dvrp_algorithm.py`).

Modelling conventions:
* Python floats are modelled as rationals (`ℚ`); all the arithmetic the
  source performs on them is exact on the inputs we consider.
* Python dicts preserve insertion order and are modelled as association
  lists: lookup is first-match, assignment replaces in place when the key is
  present and appends otherwise, `pop` removes the entry.
* The mutable objects of the source (orders, vehicles, the dock-occupancy
  table) become an explicit `SimState` record threaded through each step.
* A vehicle's LIFO stack has its top at the head of the Lean list (the
  source keeps the top at the end of the Python list); the route log keeps
  the source's append order.
* `SimState.ghostPick` is ghost instrumentation: it records, for each order
  id, the vehicle clock at the moment that order's pickup service completed
  (the source computes this value as `finish` but does not store it).  It is
  written exactly where the source commits a pickup and is never read by the
  simulation.
-/

namespace DVRP

/-- Python dict lookup `m[k]` / `m.get(k)` (first matching key; the keys of
any dict built by the source are unique). -/
def alookup {κ α : Type} [DecidableEq κ] : List (κ × α) → κ → Option α
  | [], _ => none
  | (k', v) :: rest, k => if k' = k then some v else alookup rest k

/-- Python dict assignment `m[k] = v`: replaces the value in place when the
key is present, appends a new entry otherwise. -/
def aset {κ α : Type} [DecidableEq κ] : List (κ × α) → κ → α → List (κ × α)
  | [], k, v => [(k, v)]
  | (k', v') :: rest, k, v =>
    if k' = k then (k, v) :: rest else (k', v') :: aset rest k v

/-- Python dict `m.pop(k)`: removes the entry with key `k`. -/
def apop {κ α : Type} [DecidableEq κ] : List (κ × α) → κ → List (κ × α)
  | [], _ => []
  | (k', v) :: rest, k => if k' = k then rest else (k', v) :: apop rest k

/-- Source `Plant` dataclass. -/
structure Plant where
  id : Nat
  name : String
  docks : Nat
deriving DecidableEq

/-- Source `Order` dataclass.  `delivered_time` models the attribute that the
source attaches with `setattr` and removes with `delattr`: `none` is the
absent attribute. -/
structure Order where
  id : Nat
  pickup : Nat
  delivery : Nat
  qty : Int
  arrival : ℚ
  due : ℚ
  picked : Bool := false
  delivered : Bool := false
  delivered_time : Option ℚ := none
deriving DecidableEq

/-- Source `Vehicle` dataclass (with its mutable simulation state). -/
structure Vehicle where
  id : Nat
  capacity : Int
  start_location : Nat
  location : Nat
  time : ℚ
  load : Int
  stack : List Nat
  route : List (Nat × ℚ)
deriving DecidableEq

/-- The scenario-level, read-only part of a `DVRPSimulator`. -/
structure SimConfig where
  plants : List (Nat × Plant)
  distances : List ((Nat × Nat) × ℚ)
  travel_times : List ((Nat × Nat) × ℚ)
  dock_service_time : ℚ
  unit_handling_time : ℚ
  lambda_cost : ℚ
deriving DecidableEq

/-- The mutable state of one simulation run: the orders dict, the vehicles
dict, the dock-occupancy table (plant id to list of (vehicle id, release
time)) and the ghost pickup-finish log (see the module docstring). -/
structure SimState where
  orders : List (Nat × Order)
  vehicles : List (Nat × Vehicle)
  dock_occupancy : List (Nat × List (Nat × ℚ))
  ghostPick : List (Nat × ℚ)
deriving DecidableEq

/-- Source `_travel_time`: stored travel time in either orientation, else
distance (defaulting to `1.0` when the pair is entirely missing) divided by
the fixed speed divisor `30.0`. -/
def travel_time (cfg : SimConfig) (a b : Nat) : ℚ :=
  match alookup cfg.travel_times (a, b) with
  | some t => t
  | none =>
    match alookup cfg.travel_times (b, a) with
    | some t => t
    | none =>
      (match alookup cfg.distances (a, b) with
       | some d => d
       | none =>
         match alookup cfg.distances (b, a) with
         | some d => d
         | none => 1) / 30

/-- Source `_distance`: stored distance in either orientation, defaulting to
`0.0` when the pair is entirely missing. -/
def distance (cfg : SimConfig) (a b : Nat) : ℚ :=
  match alookup cfg.distances (a, b) with
  | some d => d
  | none =>
    match alookup cfg.distances (b, a) with
    | some d => d
    | none => 0

/-- Dock count of a plant (`self.plants[plant_id].docks`; a missing plant,
which would raise in the source, is given `0` docks). -/
def plantDocks (cfg : SimConfig) (pid : Nat) : Nat :=
  match alookup cfg.plants pid with
  | some p => p.docks
  | none => 0

/-- Source `_free_docks`: prune the expired reservations of the plant (keep
those with release time strictly greater than the query time), store the
pruned list back, and return `max 0 (docks - active)` together with the
updated state.  A plant id absent from the table (which would raise in the
source) is treated as an empty reservation list. -/
def free_docks (cfg : SimConfig) (s : SimState) (pid : Nat) (atTime : ℚ) :
    Int × SimState :=
  let occ := (alookup s.dock_occupancy pid).getD []
  let occ' := occ.filter (fun e => decide (atTime < e.2))
  (max 0 ((plantDocks cfg pid : Int) - occ'.length),
   { s with dock_occupancy := aset s.dock_occupancy pid occ' })

/-- Source `_occupy_dock`: append a reservation for the plant. -/
def occupy_dock (s : SimState) (pid vehId : Nat) (untilT : ℚ) : SimState :=
  let occ := ((alookup s.dock_occupancy pid).getD []) ++ [(vehId, untilT)]
  { s with dock_occupancy := aset s.dock_occupancy pid occ }

/-- Replace the vehicle stored under key `vid`. -/
def updVeh (s : SimState) (vid : Nat) (v : Vehicle) : SimState :=
  { s with vehicles := aset s.vehicles vid v }

/-- One feasible pickup candidate: the dict entry `(key, ord)` whose object
the source would mutate, together with the projected pickup-arrival time
`arr` and the travel time `tt` (the tuple `(o, arr, tt)` of the source). -/
structure Cand where
  key : Nat
  ord : Order
  arr : ℚ
  tt : ℚ
deriving DecidableEq

/-- One order's feasibility test inside the candidate scan of
`simulate_with_tracking` (the body of `for o in self.orders.values()`):
skip picked or delivered orders, compute the earliest start, skip on
capacity, skip on the LIFO due-time rule, otherwise keep `(o, arr, tt)`.
A stack top missing from the orders dict would raise in the source and is
modelled as a skip. -/
def feasibleCand (cfg : SimConfig) (s : SimState) (veh : Vehicle)
    (k : Nat) (o : Order) : Option Cand :=
  if o.picked || o.delivered then none
  else
    let earliest := if veh.time < o.arrival then o.arrival else veh.time
    if veh.capacity < veh.load + o.qty then none
    else
      let lifoOk :=
        match veh.stack with
        | [] => true
        | topId :: _ =>
          match alookup s.orders topId with
          | some topO => decide (topO.due ≤ o.due)
          | none => false
      if lifoOk then
        let tt := travel_time cfg veh.location o.pickup
        some ⟨k, o, earliest + tt, tt⟩
      else none

/-- The `feasible` list built by the candidate scan, in dict iteration
order. -/
def computeFeasible (cfg : SimConfig) (s : SimState) (veh : Vehicle) :
    List Cand :=
  s.orders.filterMap (fun p => feasibleCand cfg s veh p.1 p.2)

/-- The sort key used by `feasible.sort(key=lambda x: (x[0].due, x[1]))`:
the lexicographic order on (due time, projected arrival). -/
def candLE (c d : Cand) : Prop :=
  c.ord.due < d.ord.due ∨ (c.ord.due = d.ord.due ∧ c.arr ≤ d.arr)

instance : DecidableRel candLE := fun c d => by
  unfold candLE
  infer_instance

instance : IsTotal Cand candLE := by
  constructor
  intro c d
  rcases lt_trichotomy c.ord.due d.ord.due with h | h | h
  · exact Or.inl (Or.inl h)
  · rcases le_total c.arr d.arr with h2 | h2
    · exact Or.inl (Or.inr ⟨h, h2⟩)
    · exact Or.inr (Or.inr ⟨h.symm, h2⟩)
  · exact Or.inr (Or.inl h)

instance : IsTrans Cand candLE := by
  constructor
  intro a b c hab hbc
  rcases hab with h1 | ⟨h1, h1'⟩ <;> rcases hbc with h2 | ⟨h2, h2'⟩
  · exact Or.inl (h1.trans h2)
  · exact Or.inl (h2 ▸ h1)
  · exact Or.inl (h1 ▸ h2)
  · exact Or.inr ⟨h1.trans h2, h1'.trans h2'⟩

/-- `feasible.sort(...)` followed by taking `feasible[0]`: Python's sort is
stable, so the chosen candidate is the head of the stable insertion sort
(`none` when the list is empty, in which case the source skips the pickup
block). -/
def selectCand (feas : List Cand) : Option Cand :=
  (List.insertionSort candLE feas).head?

/-- The delivery test at the head of the vehicle branch: the stack top (if
any) looked up in the orders dict, provided the vehicle stands at that
order's delivery plant.  A stack id missing from the dict would raise in
the source; it is modelled as a fall-through to the pickup scan. -/
def deliveryTarget (s : SimState) (veh : Vehicle) : Option (Nat × Order) :=
  match veh.stack with
  | [] => none
  | topId :: _ =>
    match alookup s.orders topId with
    | none => none
    | some o => if veh.location = o.delivery then some (topId, o) else none

/-- The delivery attempt (`if veh.location == top_o.delivery` branch): wait
one time unit when no dock is free, otherwise serve, mark the order
delivered with its delivery time, pop the stack, log the route event and
reserve the dock until the finish time. -/
def deliverAttempt (cfg : SimConfig) (s : SimState) (vid : Nat)
    (veh : Vehicle) (topId : Nat) (topO : Order) : SimState :=
  let fd := free_docks cfg s veh.location veh.time
  if fd.1 ≤ 0 then
    updVeh fd.2 vid { veh with time := veh.time + 1 }
  else
    let service := cfg.dock_service_time + cfg.unit_handling_time * (topO.qty : ℚ)
    let finish := veh.time + service
    let o' : Order := { topO with delivered := true, delivered_time := some finish }
    let s2 := { fd.2 with orders := aset fd.2.orders topId o' }
    let s3 := occupy_dock s2 veh.location veh.id finish
    updVeh s3 vid
      { veh with time := finish, load := veh.load - topO.qty,
                 stack := veh.stack.tail, route := veh.route ++ [(veh.location, finish)] }

/-- The pickup attempt on the selected candidate: drive to the pickup plant
(set clock and location), then either wait one time unit when no dock is
free, or serve, mark the order picked, push it, log the route event,
reserve the dock, and record the pickup finish in the ghost log. -/
def pickupAttempt (cfg : SimConfig) (s : SimState) (vid : Nat)
    (veh : Vehicle) (c : Cand) : SimState :=
  let veh1 := { veh with time := c.arr, location := c.ord.pickup }
  let fd := free_docks cfg s veh1.location veh1.time
  if fd.1 ≤ 0 then
    updVeh fd.2 vid { veh1 with time := veh1.time + 1 }
  else
    let service := cfg.dock_service_time + cfg.unit_handling_time * (c.ord.qty : ℚ)
    let finish := veh1.time + service
    let o' : Order := { c.ord with picked := true }
    let s2 := { fd.2 with orders := aset fd.2.orders c.key o' }
    let s3 := occupy_dock s2 veh1.location veh.id finish
    let s4 := { s3 with ghostPick := aset s3.ghostPick c.ord.id finish }
    updVeh s4 vid
      { veh1 with time := finish, load := veh.load + c.ord.qty,
                  stack := c.ord.id :: veh.stack,
                  route := veh.route ++ [(c.ord.pickup, finish)] }

/-- The tail of the vehicle branch: reposition toward the stack top's
delivery plant when possible, otherwise advance the clock by the retry
increment (the idle rule).  A stack id missing from the dict would raise
in the source and is modelled as idling. -/
def fallback (cfg : SimConfig) (s : SimState) (vid : Nat) (veh : Vehicle) :
    SimState :=
  match veh.stack with
  | topId :: _ =>
    match alookup s.orders topId with
    | some topO =>
      if veh.location ≠ topO.delivery then
        let tt := travel_time cfg veh.location topO.delivery
        updVeh s vid { veh with time := veh.time + tt, location := topO.delivery }
      else updVeh s vid { veh with time := veh.time + 1 }
    | none => updVeh s vid { veh with time := veh.time + 1 }
  | [] => updVeh s vid { veh with time := veh.time + 1 }

/-- The whole per-vehicle body of the dispatch pass, for a vehicle that is
considered (its clock is within the horizon). -/
def stepVehicleAux (cfg : SimConfig) (s : SimState) (vid : Nat)
    (veh : Vehicle) : SimState :=
  match deliveryTarget s veh with
  | some (topId, topO) => deliverAttempt cfg s vid veh topId topO
  | none =>
    match selectCand (computeFeasible cfg s veh) with
    | some c => pickupAttempt cfg s vid veh c
    | none => fallback cfg s vid veh

/-- One vehicle's turn in a pass: skipped (no state change, no progress)
when the vehicle is unknown or its clock exceeds the horizon; otherwise the
vehicle acts and — as in the source, where every branch of the body sets
`progressed = True` — the pass is marked as progressed. -/
def stepVehicle (cfg : SimConfig) (untilTime : ℚ) (s : SimState)
    (vid : Nat) : SimState × Bool :=
  match alookup s.vehicles vid with
  | none => (s, false)
  | some veh =>
    if untilTime < veh.time then (s, false)
    else (stepVehicleAux cfg s vid veh, true)

/-- The ordering used by `sorted(self.vehicles.values(), key=...)`: compare
vehicles by current clock (Python's sort is stable). -/
def vehLE (p q : Nat × Vehicle) : Prop := p.2.time ≤ q.2.time

instance : DecidableRel vehLE := fun p q => by
  unfold vehLE
  infer_instance

instance : IsTotal (Nat × Vehicle) vehLE := by
  constructor
  intro p q
  exact le_total p.2.time q.2.time

instance : IsTrans (Nat × Vehicle) vehLE := by
  constructor
  intro a b c
  exact le_trans

/-- The vehicle ids in the order a pass considers them: stable sort by
current clock, earliest first. -/
def passIds (s : SimState) : List Nat :=
  (List.insertionSort vehLE s.vehicles).map Prod.fst

/-- One full dispatch pass: consider every vehicle in clock order, threading
the state and or-ing the progress flags. -/
def runPass (cfg : SimConfig) (untilTime : ℚ) (s : SimState) :
    SimState × Bool :=
  (passIds s).foldl
    (fun acc vid =>
      let r := stepVehicle cfg untilTime acc.1 vid
      (r.1, acc.2 || r.2))
    (s, false)

/-- The loop guard `undelivered`: is some order undelivered with arrival
time within the horizon? -/
def hasUndelivered (untilTime : ℚ) (s : SimState) : Bool :=
  s.orders.any (fun p => !p.2.delivered && decide (p.2.arrival ≤ untilTime))

/-- The outer dispatch loop of `simulate_with_tracking`, fuelled by the
iteration bound (the source uses 20000): stop when no relevant order is
undelivered, run a pass, stop when it made no progress. -/
def simLoop (cfg : SimConfig) (untilTime : ℚ) : Nat → SimState → SimState
  | 0, s => s
  | n + 1, s =>
    if hasUndelivered untilTime s then
      let pr := runPass cfg untilTime s
      if pr.2 then simLoop cfg untilTime n pr.1 else pr.1
    else s

/-- The reset block at the head of `simulate_with_tracking`: clear order
flags and delivery times, reset vehicles to their start state, clear the
dock table (one empty list per plant) and the ghost log. -/
def resetState (cfg : SimConfig) (orders : List (Nat × Order))
    (vehicles : List (Nat × Vehicle)) : SimState :=
  { orders := orders.map (fun p =>
      (p.1, { p.2 with picked := false, delivered := false, delivered_time := none })),
    vehicles := vehicles.map (fun p =>
      (p.1, { p.2 with location := p.2.start_location, time := 0, load := 0,
                       stack := [], route := [] })),
    dock_occupancy := cfg.plants.map (fun p => (p.1, ([] : List (Nat × ℚ)))),
    ghostPick := [] }

/-- One order's contribution to `total_late`: the heavy penalty `due * 10`
when no delivery time was recorded, `max 0 (delivered_time - due)`
otherwise. -/
def latePenaltyTerm (o : Order) : ℚ :=
  match o.delivered_time with
  | none => o.due * 10
  | some dt => max 0 (dt - o.due)

/-- The `total_late` accumulation loop over the orders dict. -/
def totalLate (orders : List (Nat × Order)) : ℚ :=
  orders.foldl (fun acc p => acc + latePenaltyTerm p.2) 0

/-- The per-vehicle distance loop: walk the route log accumulating
`_distance(prev, loc)` starting from the vehicle's start location. -/
def routeDist (cfg : SimConfig) (v : Vehicle) : ℚ :=
  (v.route.foldl (fun acc e => (acc.1 + distance cfg acc.2 e.1, e.1))
    ((0 : ℚ), v.start_location)).1

/-- The `total_distance` accumulation loop over the vehicles dict. -/
def totalDistance (cfg : SimConfig) (vehicles : List (Nat × Vehicle)) : ℚ :=
  vehicles.foldl (fun acc p => acc + routeDist cfg p.2) 0

/-- The dictionary returned by `simulate_with_tracking`. -/
structure SimResult where
  total_late : ℚ
  avg_distance : ℚ
  objective : ℚ
  orders : List (Nat × (Bool × Bool × Option ℚ))
  vehicles : List (Nat × (List (Nat × ℚ) × ℚ × Nat))
deriving DecidableEq

/-- The objective computation and result snapshot after the dispatch
loop. -/
def mkResult (cfg : SimConfig) (s : SimState) : SimResult :=
  let tl := totalLate s.orders
  let avg := totalDistance cfg s.vehicles / ((max 1 s.vehicles.length : Nat) : ℚ)
  { total_late := tl,
    avg_distance := avg,
    objective := cfg.lambda_cost * tl + avg,
    orders := s.orders.map (fun p => (p.1, (p.2.picked, p.2.delivered, p.2.delivered_time))),
    vehicles := s.vehicles.map (fun p => (p.1, (p.2.route, p.2.time, p.2.location))) }

/-- Source `simulate_with_tracking`: reset, run the bounded dispatch loop,
compute the objective and return the result snapshot. -/
def simulate_with_tracking (cfg : SimConfig) (orders : List (Nat × Order))
    (vehicles : List (Nat × Vehicle)) (untilTime : ℚ) : SimResult :=
  mkResult cfg (simLoop cfg untilTime 20000 (resetState cfg orders vehicles))

/-! The move operators of `VNSMEOptimizer`.  Each source operator first
deep-copies the orders dict (pure values make the copy implicit here) and
draws its random keys with `random.sample`; the drawn keys are explicit
parameters `i j` below.  `random.sample` can only return two distinct
existing keys, so when the parameters are invalid the model returns the
input unchanged, exactly as it does when the dict has fewer than two
entries. -/

/-- Source `couple_exchange`: swap the delivery plants of the two sampled
orders. -/
def couple_exchange (orders : List (Nat × Order)) (i j : Nat) :
    List (Nat × Order) :=
  if orders.length < 2 then orders
  else
    match alookup orders i, alookup orders j with
    | some o1, some o2 =>
      if i = j then orders
      else
        aset (aset orders i { o1 with delivery := o2.delivery }) j
          { o2 with delivery := o1.delivery }
    | _, _ => orders

/-- Source `block_exchange`: swap the values stored at the two sampled keys
(`new_orders[i], new_orders[j] = new_orders[j], new_orders[i]`). -/
def block_exchange (orders : List (Nat × Order)) (i j : Nat) :
    List (Nat × Order) :=
  if orders.length < 2 then orders
  else
    match alookup orders i, alookup orders j with
    | some o1, some o2 =>
      if i = j then orders else aset (aset orders i o2) j o1
    | _, _ => orders

/-- Source `block_relocate`: pop the entry at the first sampled key and
re-assign it to the same key, which re-inserts it at the end of the dict
(the second sampled key is drawn but unused in the source). -/
def block_relocate (orders : List (Nat × Order)) (i j : Nat) :
    List (Nat × Order) :=
  if orders.length < 2 then orders
  else
    match alookup orders i, alookup orders j with
    | some o, some _ =>
      if i = j then orders else apop orders i ++ [(i, o)]
    | _, _ => orders

/-- Source `multi_relocate`: `block_relocate` applied twice. -/
def multi_relocate (orders : List (Nat × Order)) (p1 p2 : Nat × Nat) :
    List (Nat × Order) :=
  block_relocate (block_relocate orders p1.1 p1.2) p2.1 p2.2

/-- Source `disturb`: structurally identical to `couple_exchange`. -/
def disturb (orders : List (Nat × Order)) (i j : Nat) :
    List (Nat × Order) :=
  if orders.length < 2 then orders
  else
    match alookup orders i, alookup orders j with
    | some o1, some o2 =>
      if i = j then orders
      else
        aset (aset orders i { o1 with delivery := o2.delivery }) j
          { o2 with delivery := o1.delivery }
    | _, _ => orders

/-- The reference configuration a `VNSMEOptimizer` holds: the shared
read-only scenario data, the reference vehicles that `evaluate` clones, and
the disturbance acceptance factor. -/
structure OptCfg where
  cfg : SimConfig
  vehicles : List (Nat × Vehicle)
  disturb_acceptance : ℚ
deriving DecidableEq

/-- Source `evaluate`: deep-clone the candidate orders and the reference
vehicles (value copies here), build a fresh engine on the shared read-only
scenario data, run it with the default horizon `24*60`, and return
(objective, result). -/
def evaluate (oc : OptCfg) (orders : List (Nat × Order)) : ℚ × SimResult :=
  let r := simulate_with_tracking oc.cfg orders oc.vehicles (24 * 60)
  (r.objective, r)

/-- The random draws one optimizer round consumes, one pair of keys per
`random.sample(..., 2)` call: the four local-search moves (multi-relocate
uses two pairs) and the disturbance. -/
structure RoundPicks where
  ce : Nat × Nat
  be : Nat × Nat
  br : Nat × Nat
  mr1 : Nat × Nat
  mr2 : Nat × Nat
  db : Nat × Nat
deriving DecidableEq

/-- The mutable loop state of `optimize`: the best-known triple and the
anchor (`initial_*`) that seeds the local-search moves. -/
structure OptState where
  best_cost : ℚ
  best_res : SimResult
  best_orders : List (Nat × Order)
  initial_cost : ℚ
  initial_res : SimResult
  initial_orders : List (Nat × Order)
deriving DecidableEq

/-- The four-move local-search block of one round with the source's
first-improvement break: try `couple_exchange`, `block_exchange`,
`block_relocate`, `multi_relocate` on the anchor in that order and return
the first candidate that beats the best-known cost. -/
def tryMoves (oc : OptCfg) (p : RoundPicks) (anchor : List (Nat × Order))
    (best_cost : ℚ) : Option (ℚ × SimResult × List (Nat × Order)) :=
  let c1 := couple_exchange anchor p.ce.1 p.ce.2
  let e1 := evaluate oc c1
  if e1.1 < best_cost then some (e1.1, e1.2, c1)
  else
    let c2 := block_exchange anchor p.be.1 p.be.2
    let e2 := evaluate oc c2
    if e2.1 < best_cost then some (e2.1, e2.2, c2)
    else
      let c3 := block_relocate anchor p.br.1 p.br.2
      let e3 := evaluate oc c3
      if e3.1 < best_cost then some (e3.1, e3.2, c3)
      else
        let c4 := multi_relocate anchor p.mr1 p.mr2
        let e4 := evaluate oc c4
        if e4.1 < best_cost then some (e4.1, e4.2, c4)
        else none

/-- One round of the `while` loop of `optimize`: an improving move updates
the best-known triple; otherwise a disturbance of the best orders is
evaluated and, when it beats the anchor cost times the acceptance factor,
replaces the anchor; otherwise the loop terminates (`none`). -/
def optRound (oc : OptCfg) (st : OptState) (p : RoundPicks) :
    Option OptState :=
  match tryMoves oc p st.initial_orders st.best_cost with
  | some (bc, br, bo) =>
    some { st with best_cost := bc, best_res := br, best_orders := bo }
  | none =>
    let cand := disturb st.best_orders p.db.1 p.db.2
    let e := evaluate oc cand
    if e.1 < st.initial_cost * oc.disturb_acceptance then
      some { st with initial_cost := e.1, initial_res := e.2, initial_orders := cand }
    else none

/-- The `while` loop of `optimize`, fuelled by the list of rounds the
wall-clock budget allows (one `RoundPicks` per round the budget admits). -/
def optGo (oc : OptCfg) : List RoundPicks → OptState → ℚ × SimResult
  | [], st => (st.best_cost, st.best_res)
  | p :: rest, st =>
    match optRound oc st p with
    | some st' => optGo oc rest st'
    | none => (st.best_cost, st.best_res)

/-- Source `optimize`: evaluate the initial orders, seed both the best
triple and the anchor with them, and run the bounded loop. -/
def optimize (oc : OptCfg) (picks : List RoundPicks)
    (orders : List (Nat × Order)) : ℚ × SimResult :=
  let e := evaluate oc orders
  optGo oc picks
    { best_cost := e.1, best_res := e.2, best_orders := orders,
      initial_cost := e.1, initial_res := e.2, initial_orders := orders }

/-- The mutable reference data of the optimizer's simulator, threaded
explicitly so that non-mutation of the reference is an assertion rather
than a convention. -/
structure RefSim where
  oc : OptCfg
  ref_orders : List (Nat × Order)
deriving DecidableEq

/-- State-threaded `evaluate`: the engine built inside `evaluate` works on
clones, so the reference simulator's data is returned unchanged. -/
def evaluateSt (ref : RefSim) (orders : List (Nat × Order)) :
    (ℚ × SimResult) × RefSim :=
  (evaluate ref.oc orders, ref)

/-- Apply one `stepVehicle` per id in the given list.  The states a running
pass or loop moves through are exactly the `stepSeq` states (a pass is a
`stepSeq` over its sorted id list; pass boundaries do not change the
state). -/
def stepSeq (cfg : SimConfig) (untilTime : ℚ) (ids : List Nat)
    (s : SimState) : SimState :=
  ids.foldl (fun st vid => (stepVehicle cfg untilTime st vid).1) s

/-- Dock-capacity invariant: every reservation list in the occupancy table
is no longer than the owning plant's dock count. -/
def dockInv (cfg : SimConfig) (s : SimState) : Prop :=
  ∀ p ∈ s.dock_occupancy, p.2.length ≤ plantDocks cfg p.1

/-- Bookkeeping invariant tying the `delivered` flag to the presence of a
delivery time. -/
def dtInv (s : SimState) : Prop :=
  ∀ p ∈ s.orders, p.2.delivered = p.2.delivered_time.isSome

/-- Well-formedness of one orders-dict entry: the stored order carries its
own key as id, a nonnegative quantity, and distinct pickup and delivery
plants. -/
def ordWF (o : Order) (k : Nat) : Prop :=
  o.id = k ∧ 0 ≤ o.qty ∧ o.pickup ≠ o.delivery

/-- Causality bookkeeping for one stacked order id: it resolves to a picked,
undelivered order, its pickup-finish time is in the ghost log, and the
vehicle's clock accounts for the travel from the pickup plant to the
vehicle's position (or the vehicle still stands at the pickup plant). -/
def stackEntryOk (cfg : SimConfig) (s : SimState) (v : Vehicle)
    (oid : Nat) : Prop :=
  ∃ o, alookup s.orders oid = some o ∧ o.picked = true ∧ o.delivered = false ∧
    ∃ pf, alookup s.ghostPick oid = some pf ∧
      (pf + travel_time cfg o.pickup v.location ≤ v.time ∨
       (v.location = o.pickup ∧ pf ≤ v.time))

/-- Two vehicle entries have disjoint stacks. -/
def disjStacks (p q : Nat × Vehicle) : Prop :=
  ∀ oid, ¬(oid ∈ p.2.stack ∧ oid ∈ q.2.stack)

/-- The causality invariant of claim C9 over a simulation state. -/
structure C9Inv (cfg : SimConfig) (s : SimState) : Prop where
  ordKey : ∀ p ∈ s.orders, ordWF p.2 p.1
  ordNd : (s.orders.map Prod.fst).Nodup
  vehNd : (s.vehicles.map Prod.fst).Nodup
  dtDel : ∀ p ∈ s.orders, p.2.delivered_time.isSome → p.2.delivered = true
  delOk : ∀ p ∈ s.orders, ∀ dt, p.2.delivered_time = some dt →
    ∃ pf, alookup s.ghostPick p.1 = some pf ∧
      pf + travel_time cfg p.2.pickup p.2.delivery ≤ dt
  stkOk : ∀ q ∈ s.vehicles, ∀ oid ∈ q.2.stack, stackEntryOk cfg s q.2 oid
  stkNd : ∀ q ∈ s.vehicles, q.2.stack.Nodup
  disj : s.vehicles.Pairwise disjStacks

/-- The metric hypotheses under which the causality claim holds: the derived
travel-time oracle is nonnegative and satisfies the triangle inequality,
and the service-time parameters are nonnegative. -/
structure C9Hyp (cfg : SimConfig) : Prop where
  tri : ∀ a b c, travel_time cfg a c ≤ travel_time cfg a b + travel_time cfg b c
  nn : ∀ a b, 0 ≤ travel_time cfg a b
  dst : 0 ≤ cfg.dock_service_time
  uht : 0 ≤ cfg.unit_handling_time

/-- Consecutive-pairwise distance along a location list (the spec-side
description of the per-vehicle route distance). -/
def consecDist (cfg : SimConfig) : Nat → List Nat → ℚ
  | _, [] => 0
  | prev, l :: ls => distance cfg prev l + consecDist cfg l ls

/-- Spec-side route distance of a vehicle: consecutive pairwise distances
along the route log, starting from the vehicle's initial location. -/
def specRouteDist (cfg : SimConfig) (v : Vehicle) : ℚ :=
  consecDist cfg v.start_location (v.route.map Prod.fst)

/-- Spec-side lateness term of one order, keyed on the delivered flag: a
heavy penalty proportional to the due time when undelivered, else
`max 0 (delivered - due)`. -/
def specLateTerm (o : Order) : ℚ :=
  if o.delivered then max 0 (o.delivered_time.getD 0 - o.due) else o.due * 10

/-! Concrete instances used by counterexamples and witnesses. -/

/-- A configuration with empty travel-time and distance tables. -/
def cfgEmptyTables : SimConfig :=
  { plants := [(1, ⟨1, "A", 1⟩), (2, ⟨2, "B", 1⟩)],
    distances := [], travel_times := [],
    dock_service_time := 3, unit_handling_time := 0, lambda_cost := 100 }

/-- A three-plant scenario with asymmetric legs (plant 3 is far from plant
1 but close to plant 2). -/
def exCfg : SimConfig :=
  { plants := [(1, ⟨1, "P1", 1⟩), (2, ⟨2, "P2", 1⟩), (3, ⟨3, "P3", 1⟩)],
    distances := [((1, 2), 10), ((1, 3), 40), ((2, 3), 10)],
    travel_times := [((1, 2), 5), ((1, 3), 20), ((2, 3), 5)],
    dock_service_time := 5, unit_handling_time := 1, lambda_cost := 100 }

def exO1 : Order :=
  { id := 1, pickup := 1, delivery := 2, qty := 1, arrival := 0, due := 50 }

def exO2 : Order :=
  { id := 2, pickup := 1, delivery := 3, qty := 1, arrival := 0, due := 60 }

def exOrders : List (Nat × Order) := [(1, exO1), (2, exO2)]

def exVehicles : List (Nat × Vehicle) :=
  [(1, { id := 1, capacity := 5, start_location := 1, location := 1,
         time := 0, load := 0, stack := [], route := [] })]

def exOpt : OptCfg :=
  { cfg := exCfg, vehicles := exVehicles, disturb_acceptance := 6 }

/-- A scenario whose only order exceeds the only vehicle's capacity: every
pass is pure idling. -/
def idleCfg : SimConfig :=
  { plants := [(1, ⟨1, "A", 1⟩)], distances := [], travel_times := [],
    dock_service_time := 5, unit_handling_time := 1, lambda_cost := 100 }

def idleOrders : List (Nat × Order) :=
  [(1, { id := 1, pickup := 1, delivery := 2, qty := 10, arrival := 0, due := 100 })]

def idleVehicles : List (Nat × Vehicle) :=
  [(1, { id := 1, capacity := 5, start_location := 1, location := 1,
         time := 0, load := 0, stack := [], route := [] })]

def idleState : SimState := resetState idleCfg idleOrders idleVehicles

/-- The reset start state of the `exCfg` scenario. -/
def exState : SimState := resetState exCfg exOrders exVehicles

def exVeh1 : Vehicle :=
  { id := 1, capacity := 5, start_location := 1, location := 1,
    time := 0, load := 0, stack := [], route := [] }

/-- The candidate the vehicle of `exState` selects first. -/
def exCand1 : Cand :=
  { key := 1,
    ord := { id := 1, pickup := 1, delivery := 2, qty := 1, arrival := 0,
             due := 50 },
    arr := 1 / 30, tt := 1 / 30 }

/-- Two vehicles race for the single dock of plant 2. -/
def dockCfg : SimConfig :=
  { plants := [(1, ⟨1, "A", 2⟩), (2, ⟨2, "B", 1⟩)],
    distances := [((1, 2), 10)], travel_times := [((1, 2), 5)],
    dock_service_time := 5, unit_handling_time := 2, lambda_cost := 100 }

def dockOrders : List (Nat × Order) :=
  [(1, { id := 1, pickup := 2, delivery := 1, qty := 1, arrival := 0, due := 10 }),
   (2, { id := 2, pickup := 2, delivery := 1, qty := 1, arrival := 0, due := 20 })]

def dockVehicles : List (Nat × Vehicle) :=
  [(1, { id := 1, capacity := 5, start_location := 1, location := 1,
         time := 0, load := 0, stack := [], route := [] }),
   (2, { id := 2, capacity := 5, start_location := 1, location := 1,
         time := 0, load := 0, stack := [], route := [] })]

def dockState : SimState := resetState dockCfg dockOrders dockVehicles

/-- The state after vehicle 1 has committed its pickup at plant 2: vehicle
2 will find the dock taken. -/
def dockState1 : SimState := (stepVehicle dockCfg 1440 dockState 1).1

/-- Vehicle 2 as it stands in `dockState1`. -/
def dockVeh2 : Vehicle :=
  { id := 2, capacity := 5, start_location := 1, location := 1,
    time := 0, load := 0, stack := [], route := [] }

/-- The candidate vehicle 2 selects in `dockState1`. -/
def dockCand : Cand :=
  { key := 2,
    ord := { id := 2, pickup := 2, delivery := 1, qty := 1, arrival := 0,
             due := 20 },
    arr := 5, tt := 5 }

/-- A scenario with a non-metric travel-time table: the direct leg from
plant 1 to plant 3 is far longer than going through plant 2. -/
def c9Cfg : SimConfig :=
  { plants := [(1, ⟨1, "A", 1⟩), (2, ⟨2, "B", 1⟩), (3, ⟨3, "C", 1⟩)],
    distances := [],
    travel_times := [((1, 3), 1000), ((1, 2), 1), ((2, 3), 1)],
    dock_service_time := 0, unit_handling_time := 0, lambda_cost := 100 }

def c9Orders : List (Nat × Order) :=
  [(1, { id := 1, pickup := 1, delivery := 3, qty := 1, arrival := 0, due := 10 }),
   (2, { id := 2, pickup := 2, delivery := 3, qty := 1, arrival := 0, due := 20 })]

def c9Vehicles : List (Nat × Vehicle) :=
  [(1, { id := 1, capacity := 5, start_location := 1, location := 1,
         time := 0, load := 0, stack := [], route := [] })]

/-- A one-order scenario over the empty-table (constant 1/30 travel time)
configuration. -/
def wOrders : List (Nat × Order) :=
  [(5, { id := 5, pickup := 1, delivery := 2, qty := 1, arrival := 0, due := 50 })]

def wVehicles : List (Nat × Vehicle) :=
  [(7, { id := 7, capacity := 5, start_location := 1, location := 1,
         time := 0, load := 0, stack := [], route := [] })]

/-! Association-list lemmas. -/

attribute [local semireducible] Rat.add Rat.mul Rat.inv Rat.sub

theorem alookup_aset_self {κ α : Type} [DecidableEq κ]
    (m : List (κ × α)) (k : κ) (v : α) : alookup (aset m k v) k = some v := by
  induction m with
  | nil => simp [aset, alookup]
  | cons hd tl ih =>
    obtain ⟨a, b⟩ := hd
    by_cases h : a = k
    · simp [aset, h, alookup]
    · simp [aset, h, alookup, ih]

theorem alookup_aset_ne {κ α : Type} [DecidableEq κ]
    (m : List (κ × α)) {k k' : κ} (v : α) (h : k' ≠ k) :
    alookup (aset m k v) k' = alookup m k' := by
  induction m with
  | nil =>
    simp only [aset, alookup]
    rw [if_neg (fun hh => h hh.symm)]
  | cons hd tl ih =>
    obtain ⟨a, b⟩ := hd
    by_cases ha : a = k
    · subst ha
      have ha' : a ≠ k' := fun hh => h hh.symm
      simp [aset, alookup, ha']
    · simp only [aset, if_neg ha, alookup]
      by_cases ha' : a = k'
      · simp [ha']
      · simp [ha', ih]

theorem alookup_mem {κ α : Type} [DecidableEq κ]
    {m : List (κ × α)} {k : κ} {v : α} (h : alookup m k = some v) :
    (k, v) ∈ m := by
  induction m with
  | nil => simp [alookup] at h
  | cons hd tl ih =>
    obtain ⟨a, b⟩ := hd
    by_cases ha : a = k
    · subst ha
      simp [alookup] at h
      simp [h]
    · simp [alookup, ha] at h
      exact List.mem_cons_of_mem _ (ih h)

theorem mem_aset {κ α : Type} [DecidableEq κ]
    {m : List (κ × α)} {k : κ} {v : α} {p : κ × α} (h : p ∈ aset m k v) :
    p ∈ m ∨ p = (k, v) := by
  induction m with
  | nil => simpa [aset] using h
  | cons hd tl ih =>
    obtain ⟨a, b⟩ := hd
    by_cases ha : a = k
    · subst ha
      simp [aset] at h
      rcases h with h | h
      · exact Or.inr h
      · exact Or.inl (List.mem_cons_of_mem _ h)
    · simp [aset, ha] at h
      rcases h with h | h
      · exact Or.inl (by simp [h])
      · rcases ih h with h' | h'
        · exact Or.inl (List.mem_cons_of_mem _ h')
        · exact Or.inr h'

theorem keys_aset {κ α : Type} [DecidableEq κ]
    {m : List (κ × α)} {k : κ} {w : α} (v : α) (h : alookup m k = some w) :
    (aset m k v).map Prod.fst = m.map Prod.fst := by
  induction m with
  | nil => simp [alookup] at h
  | cons hd tl ih =>
    obtain ⟨a, b⟩ := hd
    by_cases ha : a = k
    · subst ha
      simp [aset]
    · simp [alookup, ha] at h
      simp [aset, ha, ih h]

theorem alookup_eq_of_mem_nodup {κ α : Type} [DecidableEq κ]
    {m : List (κ × α)} {k : κ} {v : α}
    (nd : (m.map Prod.fst).Nodup) (h : (k, v) ∈ m) : alookup m k = some v := by
  induction m with
  | nil => simp at h
  | cons hd tl ih =>
    obtain ⟨a, b⟩ := hd
    rcases List.mem_cons.1 h with h' | h'
    · have h1 : k = a := congrArg Prod.fst h'
      have h2 : v = b := congrArg Prod.snd h'
      subst h1
      subst h2
      simp [alookup]
    · have hk : k ∈ tl.map Prod.fst := List.mem_map.2 ⟨(k, v), h', rfl⟩
      have ha : a ≠ k := by
        intro hh
        exact (List.nodup_cons.1 nd).1 (hh ▸ hk)
      simp [alookup, ha]
      exact ih (List.nodup_cons.1 nd).2 h'

theorem mem_aset_nodup {κ α : Type} [DecidableEq κ]
    {m : List (κ × α)} {k : κ} {w v : α} {p : κ × α}
    (nd : (m.map Prod.fst).Nodup) (hw : alookup m k = some w)
    (hp : p ∈ aset m k v) : (p ∈ m ∧ p.1 ≠ k) ∨ p = (k, v) := by
  induction m with
  | nil => simp [alookup] at hw
  | cons hd tl ih =>
    obtain ⟨a, b⟩ := hd
    by_cases ha : a = k
    · subst ha
      simp [aset] at hp
      rcases hp with h | h
      · exact Or.inr h
      · refine Or.inl ⟨List.mem_cons_of_mem _ h, ?_⟩
        intro hpk
        exact (List.nodup_cons.1 nd).1
          (hpk ▸ List.mem_map.2 ⟨p, h, rfl⟩)
    · simp [alookup, ha] at hw
      simp [aset, ha] at hp
      rcases hp with h | h
      · exact Or.inl ⟨by simp [h], by simp [h, ha]⟩
      · rcases ih (List.nodup_cons.1 nd).2 hw h with ⟨h1, h2⟩ | h1
        · exact Or.inl ⟨List.mem_cons_of_mem _ h1, h2⟩
        · exact Or.inr h1

theorem pairwise_aset_nodup {κ α : Type} [DecidableEq κ]
    {R : (κ × α) → (κ × α) → Prop} {m : List (κ × α)} {k : κ} {vOld vNew : α}
    (nd : (m.map Prod.fst).Nodup) (hw : alookup m k = some vOld)
    (hp : m.Pairwise R)
    (h1 : ∀ p ∈ m, p.1 ≠ k → R p (k, vNew))
    (h2 : ∀ p ∈ m, p.1 ≠ k → R (k, vNew) p) :
    (aset m k vNew).Pairwise R := by
  induction m with
  | nil => simp [alookup] at hw
  | cons hd tl ih =>
    obtain ⟨a, b⟩ := hd
    by_cases ha : a = k
    · subst ha
      simp only [aset, if_pos rfl]
      refine List.Pairwise.cons ?_ (List.pairwise_cons.1 hp).2
      intro p hpm
      refine h2 p (List.mem_cons_of_mem _ hpm) ?_
      intro hpk
      exact (List.nodup_cons.1 nd).1 (hpk ▸ List.mem_map.2 ⟨p, hpm, rfl⟩)
    · simp only [aset, if_neg ha]
      simp [alookup, ha] at hw
      refine List.Pairwise.cons ?_ ?_
      · intro p hpm
        rcases mem_aset hpm with h | h
        · exact (List.pairwise_cons.1 hp).1 p h
        · exact h ▸ h1 (a, b) (List.mem_cons_self _ _) ha
      · exact ih (List.nodup_cons.1 nd).2 hw (List.pairwise_cons.1 hp).2
          (fun p hpm hk => h1 p (List.mem_cons_of_mem _ hpm) hk)
          (fun p hpm hk => h2 p (List.mem_cons_of_mem _ hpm) hk)

theorem disjStacks_symm : Symmetric disjStacks := by
  intro p q h oid hc
  exact h oid ⟨hc.2, hc.1⟩

theorem disj_get {m : List (Nat × Vehicle)} {p q : Nat × Vehicle}
    (hp : m.Pairwise disjStacks) (hmem : p ∈ m) (hmem' : q ∈ m)
    (hne : p.1 ≠ q.1) : disjStacks p q :=
  hp.forall disjStacks_symm hmem hmem' (fun h => hne (h ▸ rfl))

theorem alookup_append {κ α : Type} [DecidableEq κ]
    (l1 l2 : List (κ × α)) (k : κ) :
    alookup (l1 ++ l2) k =
      match alookup l1 k with
      | some v => some v
      | none => alookup l2 k := by
  induction l1 with
  | nil => simp [alookup]
  | cons hd tl ih =>
    obtain ⟨a, b⟩ := hd
    by_cases ha : a = k <;> simp [alookup, ha, ih]

theorem alookup_apop_ne {κ α : Type} [DecidableEq κ]
    (m : List (κ × α)) {k k' : κ} (h : k' ≠ k) :
    alookup (apop m k) k' = alookup m k' := by
  induction m with
  | nil => simp [apop]
  | cons hd tl ih =>
    obtain ⟨a, b⟩ := hd
    by_cases ha : a = k
    · subst ha
      have : a ≠ k' := fun hh => h hh.symm
      simp [apop, alookup, this]
    · simp only [apop, if_neg ha, alookup]
      by_cases ha' : a = k'
      · simp [ha']
      · simp [ha', ih]

theorem alookup_apop_self {κ α : Type} [DecidableEq κ]
    {m : List (κ × α)} {k : κ} (nd : (m.map Prod.fst).Nodup) :
    alookup (apop m k) k = none := by
  induction m with
  | nil => simp [apop, alookup]
  | cons hd tl ih =>
    obtain ⟨a, b⟩ := hd
    by_cases ha : a = k
    · subst ha
      simp only [apop, if_pos rfl]
      cases hl : alookup tl a with
      | none => exact hl
      | some v =>
        exact absurd (List.mem_map.2 ⟨(a, v), alookup_mem hl, rfl⟩)
          (List.nodup_cons.1 nd).1
    · simp only [apop, if_neg ha, alookup, if_neg ha]
      exact ih (List.nodup_cons.1 nd).2

theorem two_le_length_of_lookups {κ α : Type} [DecidableEq κ]
    {m : List (κ × α)} {i j : κ} {oi oj : α}
    (hi : alookup m i = some oi) (hj : alookup m j = some oj)
    (hij : i ≠ j) : 2 ≤ m.length := by
  match m with
  | [] => simp [alookup] at hi
  | [p] =>
    obtain ⟨a, b⟩ := p
    by_cases ha : a = i
    · subst ha
      simp only [alookup] at hj
      rw [if_neg hij] at hj
      exact absurd hj (by simp [alookup])
    · simp [alookup, ha] at hi
  | p :: q :: tl => simp [List.length]

/-! ## Claim C2: the travel-time lookup and its fallbacks

The source's fallback for a pair absent from both tables is
`self.distances.get((a,b), self.distances.get((b,a), 1.0)) / 30.0`: the
entirely missing distance pair defaults to `1.0`, not `0.0` (only
`_distance` defaults to `0.0`), so the synthesized travel time is `1/30`,
not zero. -/

/-- C2, counterexample: for a pair absent from every table the source
returns `1/30`, not the zero travel time the claim states. -/
theorem C2_counterexample :
    alookup cfgEmptyTables.travel_times ((4 : Nat), (5 : Nat)) = none ∧
    alookup cfgEmptyTables.travel_times ((5 : Nat), (4 : Nat)) = none ∧
    alookup cfgEmptyTables.distances ((4 : Nat), (5 : Nat)) = none ∧
    alookup cfgEmptyTables.distances ((5 : Nat), (4 : Nat)) = none ∧
    travel_time cfgEmptyTables 4 5 = 1 / 30 ∧
    ¬travel_time cfgEmptyTables 4 5 = 0 := by
  refine ⟨rfl, rfl, rfl, rfl, by norm_num [travel_time, alookup, cfgEmptyTables], ?_⟩
  norm_num [travel_time, alookup, cfgEmptyTables]

/-- C2 (amended): the travel-time lookup returns the stored travel time for
the pair (in either orientation) when present; otherwise it synthesizes
travel time as the stored distance (in either orientation) divided by the
fixed speed divisor 30; and for a pair absent from both tables it returns
`1/30` (the entirely missing distance pair is treated as distance 1).  It is
a total function: no case raises. -/
theorem C2_travel_time_amended (cfg : SimConfig) (a b : Nat) :
    (∀ t, alookup cfg.travel_times (a, b) = some t → travel_time cfg a b = t) ∧
    (alookup cfg.travel_times (a, b) = none →
      ∀ t, alookup cfg.travel_times (b, a) = some t → travel_time cfg a b = t) ∧
    (alookup cfg.travel_times (a, b) = none →
      alookup cfg.travel_times (b, a) = none →
      ∀ d, alookup cfg.distances (a, b) = some d →
        travel_time cfg a b = d / 30) ∧
    (alookup cfg.travel_times (a, b) = none →
      alookup cfg.travel_times (b, a) = none →
      alookup cfg.distances (a, b) = none →
      ∀ d, alookup cfg.distances (b, a) = some d →
        travel_time cfg a b = d / 30) ∧
    (alookup cfg.travel_times (a, b) = none →
      alookup cfg.travel_times (b, a) = none →
      alookup cfg.distances (a, b) = none →
      alookup cfg.distances (b, a) = none → travel_time cfg a b = 1 / 30) := by
  refine ⟨?_, ?_, ?_, ?_, ?_⟩ <;> intros <;> simp_all [travel_time]

/-- C2, witness for the amended theorem at a concrete missing pair. -/
theorem C2_witness :
    alookup cfgEmptyTables.travel_times ((4 : Nat), (5 : Nat)) = none ∧
    travel_time cfgEmptyTables 4 5 = 1 / 30 :=
  ⟨rfl, (C2_travel_time_amended cfgEmptyTables 4 5).2.2.2.2 rfl rfl rfl rfl⟩

/-! ## Claim C10: evaluation is deterministic and isolated

In the state-threaded embedding the reference simulator's mutable data is
an explicit value: `evaluate` builds its engine on clones, so it returns
the reference unchanged, and a second evaluation of the same snapshot after
the first returns the same objective. -/

/-- C10: evaluation returns the reference simulator's state unchanged, and
evaluating the same order-set snapshot again (through the reference state
the first call returned) yields the identical (objective, result) pair. -/
theorem C10_evaluate_isolated (ref : RefSim) (orders : List (Nat × Order)) :
    (evaluateSt ref orders).2 = ref ∧
    (evaluateSt ((evaluateSt ref orders).2) orders).1 =
      (evaluateSt ref orders).1 :=
  ⟨rfl, rfl⟩

/-! ## Claim C1: the `block_exchange` / `block_relocate` operators

`block_exchange` swaps the values stored under two keys; the simulator,
however, pushes `o.id` on vehicle stacks and dereferences stack entries
with `self.orders[stack[-1]]`, so after the swap those lookups resolve to
the other order and the simulation outcome changes.  `block_relocate`
preserves the key-to-order mapping (it only moves the entry to the end of
the dict), but the dict iteration order seeds the stable candidate sort, so
neither operator is observably inert in the claimed sense. -/

/-- C1, counterexample: on a concrete two-order scenario, evaluating the
`block_exchange`d order set yields objective 20 while the unmodified order
set yields 50 — the operator is not observably inert. -/
theorem C1_counterexample :
    (evaluate exOpt (block_exchange exOrders 1 2)).1 = 20 ∧
    (evaluate exOpt exOrders).1 = 50 ∧
    ¬(evaluate exOpt (block_exchange exOrders 1 2)).1 =
      (evaluate exOpt exOrders).1 := by
  refine ⟨by decide, by decide, by decide⟩

/-- C1 (amended): `block_relocate` preserves the key-to-order mapping
extensionally, and `block_exchange` produces the mapping with the two
chosen slots swapped and every other slot unchanged; neither operator is
guaranteed to preserve the simulation outcome, because the simulator
dereferences stacked ids through the mapping and iterates it in insertion
order. -/
theorem C1_operators_on_map (orders : List (Nat × Order)) (i j : Nat)
    (oi oj : Order) (nd : (orders.map Prod.fst).Nodup)
    (hi : alookup orders i = some oi) (hj : alookup orders j = some oj)
    (hij : i ≠ j) :
    (∀ k, alookup (block_relocate orders i j) k = alookup orders k) ∧
    alookup (block_exchange orders i j) i = some oj ∧
    alookup (block_exchange orders i j) j = some oi ∧
    (∀ k, k ≠ i → k ≠ j →
      alookup (block_exchange orders i j) k = alookup orders k) := by
  have hlen := two_le_length_of_lookups hi hj hij
  have hlen' : ¬orders.length < 2 := Nat.not_lt.2 hlen
  constructor
  · intro k
    simp only [block_relocate, if_neg hlen', hi, hj, if_neg hij]
    rw [alookup_append]
    by_cases hk : k = i
    · subst hk
      rw [alookup_apop_self nd]
      simp [alookup, hi]
    · rw [alookup_apop_ne _ hk]
      cases hl : alookup orders k with
      | none =>
        simp only [alookup]
        rw [if_neg (fun h => hk h.symm)]
      | some v => rfl
  · refine ⟨?_, ?_, ?_⟩
    · simp only [block_exchange, if_neg hlen', hi, hj, if_neg hij]
      rw [alookup_aset_ne _ _ hij, alookup_aset_self]
    · simp only [block_exchange, if_neg hlen', hi, hj, if_neg hij]
      rw [alookup_aset_self]
    · intro k hki hkj
      simp only [block_exchange, if_neg hlen', hi, hj, if_neg hij]
      rw [alookup_aset_ne _ _ hkj, alookup_aset_ne _ _ hki]

/-! Candidate-scan lemmas, shared by several claims. -/

theorem mem_computeFeasible {cfg : SimConfig} {s : SimState} {veh : Vehicle}
    {c : Cand} (h : c ∈ computeFeasible cfg s veh) :
    (c.key, c.ord) ∈ s.orders ∧ c.ord.picked = false ∧
    c.ord.delivered = false ∧ veh.load + c.ord.qty ≤ veh.capacity ∧
    (∀ topId, veh.stack.head? = some topId →
      ∀ topO, alookup s.orders topId = some topO → topO.due ≤ c.ord.due) ∧
    c.tt = travel_time cfg veh.location c.ord.pickup ∧
    c.arr = (if veh.time < c.ord.arrival then c.ord.arrival else veh.time) + c.tt := by
  obtain ⟨p, hp, hfc⟩ := List.mem_filterMap.1 h
  obtain ⟨k, o⟩ := p
  simp only [feasibleCand] at hfc
  by_cases h1 : (o.picked || o.delivered) = true
  · rw [if_pos h1] at hfc
    cases hfc
  · rw [if_neg h1] at hfc
    have hpk : o.picked = false := (Bool.or_eq_false_iff.1 (Bool.not_eq_true _ ▸ h1)).1
    have hdl : o.delivered = false := (Bool.or_eq_false_iff.1 (Bool.not_eq_true _ ▸ h1)).2
    by_cases h2 : veh.capacity < veh.load + o.qty
    · rw [if_pos h2] at hfc
      cases hfc
    · rw [if_neg h2] at hfc
      rcases hstk : veh.stack with _ | ⟨topId, rest⟩
      · rw [hstk] at hfc
        simp only [if_true] at hfc
        have hc := Option.some.inj hfc
        subst hc
        refine ⟨hp, hpk, hdl, not_lt.1 h2, ?_, rfl, rfl⟩
        intro t ht
        simp at ht
      · rw [hstk] at hfc
        simp only [] at hfc
        split at hfc
        · rename_i hguard
          have hc := Option.some.inj hfc
          subst hc
          refine ⟨hp, hpk, hdl, not_lt.1 h2, ?_, rfl, rfl⟩
          intro t ht
          simp only [List.head?] at ht
          have ht' := Option.some.inj ht
          subst ht'
          intro topO' hlo'
          rw [hlo'] at hguard
          simp only [] at hguard
          exact of_decide_eq_true hguard
        · cases hfc

theorem selectCand_mem {feas : List Cand} {c : Cand}
    (h : selectCand feas = some c) : c ∈ feas := by
  unfold selectCand at h
  cases hs : List.insertionSort candLE feas with
  | nil => rw [hs] at h; exact absurd h (by simp)
  | cons a l =>
    rw [hs] at h
    simp only [List.head?] at h
    have hac := Option.some.inj h
    subst hac
    exact (List.mem_insertionSort candLE).1 (hs ▸ List.mem_cons_self _ _)

theorem selectCand_min {feas : List Cand} {c : Cand}
    (h : selectCand feas = some c) : ∀ d ∈ feas, candLE c d := by
  intro d hd
  unfold selectCand at h
  cases hs : List.insertionSort candLE feas with
  | nil => rw [hs] at h; exact absurd h (by simp)
  | cons a l =>
    rw [hs] at h
    simp only [List.head?] at h
    have hac := Option.some.inj h
    subst hac
    have hsort := List.sorted_insertionSort candLE feas
    rw [hs] at hsort
    have hd' : d ∈ a :: l := hs ▸ (List.mem_insertionSort candLE).2 hd
    rcases List.mem_cons.1 hd' with rfl | hd''
    · exact Or.inr ⟨rfl, le_refl _⟩
    · exact List.rel_of_sorted_cons hsort d hd''

/-! Shape lemmas: which state components each branch touches. -/

theorem orders_updVeh (s : SimState) (vid : Nat) (v : Vehicle) :
    (updVeh s vid v).orders = s.orders := rfl

theorem orders_fallback (cfg : SimConfig) (s : SimState) (vid : Nat)
    (veh : Vehicle) : (fallback cfg s vid veh).orders = s.orders := by
  unfold fallback
  rcases veh.stack with _ | ⟨topId, rest⟩
  · rfl
  · simp only []
    rcases h : alookup s.orders topId with _ | topO
    · rfl
    · simp only []
      by_cases he : veh.location ≠ topO.delivery
      · rw [if_pos he]
        rfl
      · rw [if_neg he]
        rfl

/-! The delivered-flag / delivery-time bookkeeping invariant (`dtInv`). -/

theorem dtInv_reset (cfg : SimConfig) (orders : List (Nat × Order))
    (vehicles : List (Nat × Vehicle)) :
    dtInv (resetState cfg orders vehicles) := by
  intro p hp
  obtain ⟨q, _, rfl⟩ := List.mem_map.1 hp
  rfl

theorem dtInv_deliverAttempt {cfg : SimConfig} {s : SimState} {vid : Nat}
    {veh : Vehicle} {topId : Nat} {topO : Order} (h : dtInv s) :
    dtInv (deliverAttempt cfg s vid veh topId topO) := by
  unfold deliverAttempt
  by_cases hfd : (free_docks cfg s veh.location veh.time).1 ≤ 0
  · simp only [if_pos hfd]
    exact h
  · simp only [if_neg hfd]
    intro p hp
    rcases mem_aset hp with hp' | rfl
    · exact h p hp'
    · rfl

theorem dtInv_pickupAttempt {cfg : SimConfig} {s : SimState} {vid : Nat}
    {veh : Vehicle} {c : Cand} (h : dtInv s)
    (hmem : (c.key, c.ord) ∈ s.orders) :
    dtInv (pickupAttempt cfg s vid veh c) := by
  unfold pickupAttempt
  by_cases hfd : (free_docks cfg s c.ord.pickup c.arr).1 ≤ 0
  · simp only [if_pos hfd]
    exact h
  · simp only [if_neg hfd]
    intro p hp
    rcases mem_aset hp with hp' | rfl
    · exact h p hp'
    · exact h (c.key, c.ord) hmem

theorem dtInv_stepVehicle {cfg : SimConfig} {untilTime : ℚ} {s : SimState}
    {vid : Nat} (h : dtInv s) : dtInv (stepVehicle cfg untilTime s vid).1 := by
  unfold stepVehicle
  rcases hv : alookup s.vehicles vid with _ | veh
  · exact h
  · by_cases ht : untilTime < veh.time
    · simp only [if_pos ht]
      exact h
    · simp only [if_neg ht]
      show dtInv (stepVehicleAux cfg s vid veh)
      unfold stepVehicleAux
      rcases hd : deliveryTarget s veh with _ | ⟨topId, topO⟩
      · simp only []
        rcases hc : selectCand (computeFeasible cfg s veh) with _ | c
        · simp only []
          intro p hp
          rw [orders_fallback] at hp
          exact h p hp
        · simp only []
          exact dtInv_pickupAttempt h (mem_computeFeasible (selectCand_mem hc)).1
      · simp only []
        exact dtInv_deliverAttempt h

/-- Any state predicate preserved by `stepVehicle` is preserved along the
fold of a pass. -/
theorem foldPass_preserves (cfg : SimConfig) (untilTime : ℚ)
    {P : SimState → Prop}
    (hstep : ∀ s vid, P s → P (stepVehicle cfg untilTime s vid).1) :
    ∀ (ids : List Nat) (acc : SimState × Bool), P acc.1 →
      P ((ids.foldl (fun acc vid =>
        let r := stepVehicle cfg untilTime acc.1 vid
        (r.1, acc.2 || r.2)) acc).1) := by
  intro ids
  induction ids with
  | nil => exact fun acc h => h
  | cons hd tl ih =>
    intro acc h
    exact ih _ (hstep acc.1 hd h)

theorem runPass_preserves {cfg : SimConfig} {untilTime : ℚ}
    {P : SimState → Prop}
    (hstep : ∀ s vid, P s → P (stepVehicle cfg untilTime s vid).1)
    {s : SimState} (h : P s) : P (runPass cfg untilTime s).1 :=
  foldPass_preserves cfg untilTime hstep (passIds s) (s, false) h

theorem stepSeq_preserves {cfg : SimConfig} {untilTime : ℚ}
    {P : SimState → Prop}
    (hstep : ∀ s vid, P s → P (stepVehicle cfg untilTime s vid).1)
    (ids : List Nat) {s : SimState} (h : P s) :
    P (stepSeq cfg untilTime ids s) := by
  induction ids generalizing s with
  | nil => exact h
  | cons hd tl ih => exact ih (hstep s hd h)

theorem simLoop_preserves {cfg : SimConfig} {untilTime : ℚ}
    {P : SimState → Prop}
    (hstep : ∀ s vid, P s → P (stepVehicle cfg untilTime s vid).1) :
    ∀ {n : Nat} {s : SimState}, P s → P (simLoop cfg untilTime n s) := by
  intro n
  induction n with
  | zero => exact fun h => h
  | succ n ih =>
    intro s h
    unfold simLoop
    by_cases hu : hasUndelivered untilTime s
    · simp only [if_pos hu]
      by_cases hp : (runPass cfg untilTime s).2
      · simp only [if_pos hp]
        exact ih (runPass_preserves hstep h)
      · simp only [if_neg hp]
        exact runPass_preserves hstep h
    · simp only [if_neg hu]
      exact h

theorem dtInv_simLoop {cfg : SimConfig} {untilTime : ℚ} {n : Nat}
    {s : SimState} (h : dtInv s) : dtInv (simLoop cfg untilTime n s) :=
  simLoop_preserves (fun _ _ => dtInv_stepVehicle) h

/-! ## Claim C5: the objective aggregates -/

theorem foldl_add_map {α : Type} (l : List α) (f : α → ℚ) (a : ℚ) :
    l.foldl (fun acc x => acc + f x) a = a + (l.map f).sum := by
  induction l generalizing a with
  | nil => simp
  | cons hd tl ih =>
    simp only [List.foldl, List.map, List.sum_cons]
    rw [ih]
    ring

theorem totalLate_eq_sum (orders : List (Nat × Order)) :
    totalLate orders = (orders.map (fun p => latePenaltyTerm p.2)).sum := by
  unfold totalLate
  rw [foldl_add_map]
  ring

theorem totalDistance_eq_sum (cfg : SimConfig)
    (vehicles : List (Nat × Vehicle)) :
    totalDistance cfg vehicles =
      (vehicles.map (fun p => routeDist cfg p.2)).sum := by
  unfold totalDistance
  rw [foldl_add_map]
  ring

theorem routeDist_foldl (cfg : SimConfig) :
    ∀ (route : List (Nat × ℚ)) (a : ℚ) (prev : Nat),
      (route.foldl (fun acc e => (acc.1 + distance cfg acc.2 e.1, e.1))
          (a, prev)).1 = a + consecDist cfg prev (route.map Prod.fst) := by
  intro route
  induction route with
  | nil =>
    intro a prev
    simp [consecDist]
  | cons hd tl ih =>
    intro a prev
    simp only [List.foldl, List.map, consecDist]
    rw [ih]
    ring

theorem routeDist_eq_spec (cfg : SimConfig) (v : Vehicle) :
    routeDist cfg v = specRouteDist cfg v := by
  unfold routeDist specRouteDist
  rw [routeDist_foldl]
  ring

theorem latePenalty_eq_spec {o : Order}
    (h : o.delivered = o.delivered_time.isSome) :
    latePenaltyTerm o = specLateTerm o := by
  unfold latePenaltyTerm specLateTerm
  rcases hdt : o.delivered_time with _ | dt
  · rw [hdt] at h
    simp only [Option.isSome_none] at h
    rw [if_neg (by simp [h])]
  · rw [hdt] at h
    simp only [Option.isSome_some] at h
    rw [if_pos h]
    simp [hdt]

/-- C5: after the dispatch loop, total lateness is the sum over all orders
of (due × 10 if undelivered, else max 0 (delivered − due)); average
distance is the sum over vehicles of the consecutive pairwise distances
along each route log starting from the vehicle's initial location, divided
by the number of vehicles; and the objective is the lateness weight times
total lateness plus the average distance. -/
theorem C5_objective_formulas (cfg : SimConfig) (orders : List (Nat × Order))
    (vehicles : List (Nat × Vehicle)) (untilTime : ℚ) :
    (simulate_with_tracking cfg orders vehicles untilTime).total_late =
      (((simLoop cfg untilTime 20000 (resetState cfg orders vehicles)).orders.map
        (fun p => specLateTerm p.2)).sum) ∧
    (simulate_with_tracking cfg orders vehicles untilTime).avg_distance =
      (((simLoop cfg untilTime 20000 (resetState cfg orders vehicles)).vehicles.map
        (fun p => specRouteDist cfg p.2)).sum) /
      (((simLoop cfg untilTime 20000 (resetState cfg orders vehicles)).vehicles.length : Nat) : ℚ) ∧
    (simulate_with_tracking cfg orders vehicles untilTime).objective =
      cfg.lambda_cost *
        (simulate_with_tracking cfg orders vehicles untilTime).total_late +
      (simulate_with_tracking cfg orders vehicles untilTime).avg_distance := by
  have hdt : dtInv (simLoop cfg untilTime 20000 (resetState cfg orders vehicles)) :=
    dtInv_simLoop (dtInv_reset cfg orders vehicles)
  refine ⟨?_, ?_, rfl⟩
  · show totalLate (simLoop cfg untilTime 20000 (resetState cfg orders vehicles)).orders = _
    rw [totalLate_eq_sum]
    exact congrArg List.sum
      (List.map_congr_left (fun p hp => latePenalty_eq_spec (hdt p hp)))
  · show totalDistance cfg (simLoop cfg untilTime 20000 (resetState cfg orders vehicles)).vehicles /
        ((max 1 (simLoop cfg untilTime 20000 (resetState cfg orders vehicles)).vehicles.length : Nat) : ℚ) = _
    rw [totalDistance_eq_sum,
      List.map_congr_left (fun (p : Nat × Vehicle) _ => routeDist_eq_spec cfg p.2)]
    generalize (simLoop cfg untilTime 20000 (resetState cfg orders vehicles)).vehicles = L
    cases L with
    | nil => simp
    | cons hd tl =>
      rw [show max 1 (hd :: tl).length = (hd :: tl).length from
        Nat.max_eq_right (by simp [Nat.succ_le_succ])]

/-! ## Claim C8: monotonicity of the optimizer -/

theorem tryMoves_lt {oc : OptCfg} {p : RoundPicks}
    {anchor : List (Nat × Order)} {bc : ℚ}
    {x : ℚ × SimResult × List (Nat × Order)}
    (h : tryMoves oc p anchor bc = some x) : x.1 < bc := by
  simp only [tryMoves] at h
  split_ifs at h with h1 h2 h3 h4
  · cases h
    exact h1
  · cases h
    exact h2
  · cases h
    exact h3
  · cases h
    exact h4

theorem optRound_le {oc : OptCfg} {st st' : OptState} {p : RoundPicks}
    (h : optRound oc st p = some st') : st'.best_cost ≤ st.best_cost := by
  unfold optRound at h
  rcases htm : tryMoves oc p st.initial_orders st.best_cost with _ | x
  · rw [htm] at h
    simp only [] at h
    split_ifs at h
    · cases h
      exact le_refl _
  · obtain ⟨bc, br, bo⟩ := x
    rw [htm] at h
    simp only [] at h
    cases h
    exact le_of_lt (tryMoves_lt htm)

theorem optGo_le (oc : OptCfg) :
    ∀ (picks : List RoundPicks) (st : OptState),
      (optGo oc picks st).1 ≤ st.best_cost := by
  intro picks
  induction picks with
  | nil => exact fun st => le_refl _
  | cons p rest ih =>
    intro st
    unfold optGo
    rcases hr : optRound oc st p with _ | st'
    · exact le_refl _
    · exact (ih st').trans (optRound_le hr)

/-! ## Claim C3: what counts as pass progress

In the source every branch of the per-vehicle body sets
`progressed = True`, including the idle rule and the dock-wait rules; a
pass therefore reports progress exactly when some vehicle was considered at
all (its clock within the horizon), and an all-idle pass still counts as
progress.  The loop does halt after a no-progress pass, but such a pass
occurs only when every vehicle's clock exceeds the horizon. -/

theorem vehicles_deliverAttempt (cfg : SimConfig) (s : SimState) (vid : Nat)
    (veh : Vehicle) (topId : Nat) (topO : Order) :
    ∃ w, (deliverAttempt cfg s vid veh topId topO).vehicles =
      aset s.vehicles vid w := by
  unfold deliverAttempt
  by_cases hfd : (free_docks cfg s veh.location veh.time).1 ≤ 0
  · rw [if_pos hfd]
    exact ⟨_, rfl⟩
  · rw [if_neg hfd]
    exact ⟨_, rfl⟩

theorem vehicles_pickupAttempt (cfg : SimConfig) (s : SimState) (vid : Nat)
    (veh : Vehicle) (c : Cand) :
    ∃ w, (pickupAttempt cfg s vid veh c).vehicles = aset s.vehicles vid w := by
  unfold pickupAttempt
  by_cases hfd : (free_docks cfg s c.ord.pickup c.arr).1 ≤ 0
  · rw [if_pos hfd]
    exact ⟨_, rfl⟩
  · rw [if_neg hfd]
    exact ⟨_, rfl⟩

theorem vehicles_fallback (cfg : SimConfig) (s : SimState) (vid : Nat)
    (veh : Vehicle) :
    ∃ w, (fallback cfg s vid veh).vehicles = aset s.vehicles vid w := by
  unfold fallback
  rcases veh.stack with _ | ⟨topId, rest⟩
  · exact ⟨_, rfl⟩
  · simp only []
    rcases h : alookup s.orders topId with _ | topO
    · exact ⟨_, rfl⟩
    · simp only []
      by_cases he : veh.location ≠ topO.delivery
      · rw [if_pos he]
        exact ⟨_, rfl⟩
      · rw [if_neg he]
        exact ⟨_, rfl⟩

theorem vehicles_stepVehicleAux (cfg : SimConfig) (s : SimState) (vid : Nat)
    (veh : Vehicle) :
    ∃ w, (stepVehicleAux cfg s vid veh).vehicles = aset s.vehicles vid w := by
  unfold stepVehicleAux
  rcases hd : deliveryTarget s veh with _ | ⟨topId, topO⟩
  · simp only []
    rcases hc : selectCand (computeFeasible cfg s veh) with _ | c
    · simp only []
      exact vehicles_fallback cfg s vid veh
    · simp only []
      exact vehicles_pickupAttempt cfg s vid veh c
  · simp only []
    exact vehicles_deliverAttempt cfg s vid veh topId topO

theorem stepVehicle_eq_skip_none {cfg : SimConfig} {untilTime : ℚ}
    {s : SimState} {vid : Nat} (h : alookup s.vehicles vid = none) :
    stepVehicle cfg untilTime s vid = (s, false) := by
  unfold stepVehicle
  rw [h]

theorem stepVehicle_eq_skip_late {cfg : SimConfig} {untilTime : ℚ}
    {s : SimState} {vid : Nat} {v : Vehicle}
    (h : alookup s.vehicles vid = some v) (ht : untilTime < v.time) :
    stepVehicle cfg untilTime s vid = (s, false) := by
  unfold stepVehicle
  rw [h]
  simp only []
  rw [if_pos ht]

theorem stepVehicle_eq_act {cfg : SimConfig} {untilTime : ℚ}
    {s : SimState} {vid : Nat} {v : Vehicle}
    (h : alookup s.vehicles vid = some v) (ht : ¬untilTime < v.time) :
    stepVehicle cfg untilTime s vid = (stepVehicleAux cfg s vid v, true) := by
  unfold stepVehicle
  rw [h]
  simp only []
  rw [if_neg ht]

theorem stepVehicle_lookup_other {cfg : SimConfig} {untilTime : ℚ}
    {s : SimState} {vid vid' : Nat} (hne : vid ≠ vid') :
    alookup ((stepVehicle cfg untilTime s vid').1).vehicles vid =
      alookup s.vehicles vid := by
  rcases hv : alookup s.vehicles vid' with _ | v
  · rw [stepVehicle_eq_skip_none hv]
  · by_cases ht : untilTime < v.time
    · rw [stepVehicle_eq_skip_late hv ht]
    · rw [stepVehicle_eq_act hv ht]
      obtain ⟨w, hw⟩ := vehicles_stepVehicleAux cfg s vid' v
      show alookup (stepVehicleAux cfg s vid' v).vehicles vid = _
      rw [hw]
      exact alookup_aset_ne _ _ hne

theorem foldPass_mono (cfg : SimConfig) (untilTime : ℚ) :
    ∀ (ids : List Nat) (acc : SimState × Bool), acc.2 = true →
      ((ids.foldl (fun acc vid =>
        let r := stepVehicle cfg untilTime acc.1 vid
        (r.1, acc.2 || r.2)) acc).2) = true := by
  intro ids
  induction ids with
  | nil => exact fun acc h => h
  | cons hd tl ih =>
    intro acc h
    exact ih _ (by simp [h])

theorem foldPass_true (cfg : SimConfig) (untilTime : ℚ) :
    ∀ (ids : List Nat) (acc : SimState × Bool) (vid : Nat) (v : Vehicle),
      vid ∈ ids →
      (acc.2 = true ∨
        (alookup acc.1.vehicles vid = some v ∧ ¬untilTime < v.time)) →
      ((ids.foldl (fun acc vid =>
        let r := stepVehicle cfg untilTime acc.1 vid
        (r.1, acc.2 || r.2)) acc).2) = true := by
  intro ids
  induction ids with
  | nil =>
    intro acc vid v hmem
    simp at hmem
  | cons hd tl ih =>
    intro acc vid v hmem hst
    rcases hst with hb | ⟨hl, ht⟩
    · exact foldPass_mono cfg untilTime _ _ hb
    · by_cases heq : vid = hd
      · subst heq
        simp only [List.foldl]
        rw [stepVehicle_eq_act hl ht]
        exact foldPass_mono cfg untilTime _ _ (by rw [Bool.or_true])
      · have hmem' : vid ∈ tl := by
          rcases List.mem_cons.1 hmem with h' | h'
          · exact absurd h' heq
          · exact h'
        refine ih _ vid v hmem' (Or.inr ⟨?_, ht⟩)
        show alookup ((stepVehicle cfg untilTime acc.1 hd).1).vehicles vid = some v
        rw [stepVehicle_lookup_other heq]
        exact hl

theorem mem_passIds {s : SimState} {vid : Nat} {v : Vehicle}
    (h : (vid, v) ∈ s.vehicles) : vid ∈ passIds s :=
  List.mem_map.2 ⟨(vid, v), (List.mem_insertionSort vehLE).2 h, rfl⟩

theorem runPass_of_all_late {cfg : SimConfig} {untilTime : ℚ} {s : SimState}
    (h : ∀ p ∈ s.vehicles, untilTime < p.2.time) :
    runPass cfg untilTime s = (s, false) := by
  unfold runPass
  generalize passIds s = ids
  induction ids with
  | nil => rfl
  | cons hd tl ih =>
    simp only [List.foldl]
    have hstep : stepVehicle cfg untilTime s hd = (s, false) := by
      rcases hv : alookup s.vehicles hd with _ | v
      · exact stepVehicle_eq_skip_none hv
      · exact stepVehicle_eq_skip_late hv (h (hd, v) (alookup_mem hv))
    rw [hstep]
    exact ih

/-- C3 (amended): a pass reports progress iff some vehicle was considered
at all (clock within the horizon) — every per-vehicle action, the idle rule
and the dock-wait rules included, sets the progress flag, so an all-idle
pass still counts as progress; and the outer loop halts after any pass that
reports no progress. -/
theorem C3_pass_progress (cfg : SimConfig) (untilTime : ℚ) (s : SimState)
    (n : Nat) (nd : (s.vehicles.map Prod.fst).Nodup) :
    ((runPass cfg untilTime s).2 = true ↔
      ∃ p ∈ s.vehicles, p.2.time ≤ untilTime) ∧
    (hasUndelivered untilTime s = true → (runPass cfg untilTime s).2 = false →
      simLoop cfg untilTime (n + 1) s = (runPass cfg untilTime s).1) := by
  constructor
  · constructor
    · intro hp
      by_contra hex
      push_neg at hex
      rw [runPass_of_all_late hex] at hp
      cases hp
    · rintro ⟨⟨vid, v⟩, hmem, hle⟩
      have hl : alookup s.vehicles vid = some v :=
        alookup_eq_of_mem_nodup nd hmem
      exact foldPass_true cfg untilTime (passIds s) (s, false) vid v
        (mem_passIds hmem) (Or.inr ⟨hl, not_lt.2 hle⟩)
  · intro h1 h2
    unfold simLoop
    rw [h1]
    simp only [if_true, h2]
    rfl

/-- C3, counterexample: a full pass in which the only vehicle merely idles
(clock 0 to 1, nothing else changes) is reported as progress by the source,
refuting the claim that an all-idle pass yields no progress. -/
theorem C3_counterexample :
    (runPass idleCfg 1440 idleState).2 = true ∧
    (runPass idleCfg 1440 idleState).1.orders = idleState.orders ∧
    (runPass idleCfg 1440 idleState).1.dock_occupancy =
      idleState.dock_occupancy ∧
    (runPass idleCfg 1440 idleState).1.ghostPick = idleState.ghostPick ∧
    alookup (runPass idleCfg 1440 idleState).1.vehicles 1 =
      some { id := 1, capacity := 5, start_location := 1, location := 1,
             time := 1, load := 0, stack := [], route := [] } := by
  refine ⟨by decide, by decide, by decide, by decide, by decide⟩

/-- C3, witness for the amended theorem on the all-idle scenario. -/
theorem C3_witness :
    ((idleState.vehicles.map Prod.fst).Nodup) ∧
    (((runPass idleCfg 1440 idleState).2 = true ↔
      ∃ p ∈ idleState.vehicles, p.2.time ≤ 1440) ∧
    (hasUndelivered 1440 idleState = true →
      (runPass idleCfg 1440 idleState).2 = false →
      simLoop idleCfg 1440 (5 + 1) idleState =
        (runPass idleCfg 1440 idleState).1)) :=
  ⟨by decide, C3_pass_progress idleCfg 1440 idleState 5 (by decide)⟩

/-! ## Claim C4: the blocked-pickup frame

In the source the vehicle drives before checking the dock:
`veh.time = arr; veh.location = o.pickup` happen first, and only then does
the `free <= 0` branch add the retry increment.  So on a blocked pickup the
clock becomes the projected arrival plus one — not the old clock plus one —
and the location changes to the pickup plant.  Everything else is indeed
untouched (expired dock reservations of the pickup plant are pruned by the
query, but no reservation is added). -/

/-- C4, counterexample: in a direct dock race, the losing vehicle ends the
pass at clock 6 (arrival 5 plus the increment) and standing at the pickup
plant 2 — not at clock 0 + 1 and not at its old location 1. -/
theorem C4_counterexample :
    alookup (runPass dockCfg 1440 dockState).1.vehicles 2 =
      some { id := 2, capacity := 5, start_location := 1, location := 2,
             time := 6, load := 0, stack := [], route := [] } ∧
    ¬((6 : ℚ) = 0 + 1) ∧ ¬((2 : Nat) = 1) := by
  refine ⟨by decide, by decide, by decide⟩

/-- C4 (amended): when the vehicle has selected a feasible candidate and
the pickup plant has no free dock at the projected arrival, the vehicle
ends the step at the pickup plant with clock equal to the projected arrival
plus the retry increment; the order set is unchanged (nothing is marked
picked), the ghost log is unchanged (no pickup finish recorded), the
vehicle's load, stack and route log are unchanged, every other vehicle is
unchanged, and the dock table changes only by pruning the expired
reservations of the pickup plant — no reservation is added.  The pass still
reports progress. -/
theorem C4_pickup_wait (cfg : SimConfig) (untilTime : ℚ) (s : SimState)
    (vid : Nat) (veh : Vehicle) (c : Cand)
    (hv : alookup s.vehicles vid = some veh)
    (ht : ¬untilTime < veh.time)
    (hd : deliveryTarget s veh = none)
    (hc : selectCand (computeFeasible cfg s veh) = some c)
    (hfd : (free_docks cfg s c.ord.pickup c.arr).1 ≤ 0) :
    (stepVehicle cfg untilTime s vid).2 = true ∧
    (stepVehicle cfg untilTime s vid).1.orders = s.orders ∧
    (stepVehicle cfg untilTime s vid).1.ghostPick = s.ghostPick ∧
    alookup (stepVehicle cfg untilTime s vid).1.vehicles vid =
      some { veh with time := c.arr + 1, location := c.ord.pickup } ∧
    (∀ vid', vid' ≠ vid →
      alookup (stepVehicle cfg untilTime s vid).1.vehicles vid' =
        alookup s.vehicles vid') ∧
    (stepVehicle cfg untilTime s vid).1.dock_occupancy =
      aset s.dock_occupancy c.ord.pickup
        (((alookup s.dock_occupancy c.ord.pickup).getD []).filter
          (fun e => decide (c.arr < e.2))) := by
  rw [stepVehicle_eq_act hv ht]
  simp only []
  show True ∧ _
  refine ⟨trivial, ?_⟩
  unfold stepVehicleAux
  rw [hd]
  simp only []
  rw [hc]
  simp only []
  unfold pickupAttempt
  have hfd' : (free_docks cfg s
      ({ veh with time := c.arr, location := c.ord.pickup } : Vehicle).location
      ({ veh with time := c.arr, location := c.ord.pickup } : Vehicle).time).1 ≤ 0 := hfd
  rw [if_pos hfd']
  refine ⟨rfl, rfl, ?_, ?_, rfl⟩
  · show alookup (aset s.vehicles vid _) vid = _
    rw [alookup_aset_self]
  · intro vid' hne
    show alookup (aset s.vehicles vid _) vid' = _
    exact alookup_aset_ne _ _ hne

/-- C4, witness for the amended theorem at the concrete blocked pickup. -/
theorem C4_witness :
    (alookup dockState1.vehicles 2 = some dockVeh2 ∧
      ¬(1440 : ℚ) < dockVeh2.time ∧
      deliveryTarget dockState1 dockVeh2 = none ∧
      selectCand (computeFeasible dockCfg dockState1 dockVeh2) =
        some dockCand ∧
      (free_docks dockCfg dockState1 dockCand.ord.pickup dockCand.arr).1 ≤ 0) ∧
    ((stepVehicle dockCfg 1440 dockState1 2).2 = true ∧
      (stepVehicle dockCfg 1440 dockState1 2).1.orders = dockState1.orders ∧
      (stepVehicle dockCfg 1440 dockState1 2).1.ghostPick =
        dockState1.ghostPick ∧
      alookup (stepVehicle dockCfg 1440 dockState1 2).1.vehicles 2 =
        some { dockVeh2 with time := dockCand.arr + 1,
                             location := dockCand.ord.pickup } ∧
      (∀ vid', vid' ≠ 2 →
        alookup (stepVehicle dockCfg 1440 dockState1 2).1.vehicles vid' =
          alookup dockState1.vehicles vid') ∧
      (stepVehicle dockCfg 1440 dockState1 2).1.dock_occupancy =
        aset dockState1.dock_occupancy dockCand.ord.pickup
          (((alookup dockState1.dock_occupancy dockCand.ord.pickup).getD []).filter
            (fun e => decide (dockCand.arr < e.2)))) :=
  ⟨⟨by decide, by decide, by decide, by decide, by decide⟩,
   C4_pickup_wait dockCfg 1440 dockState1 2 dockVeh2 dockCand
     (by decide) (by decide) (by decide) (by decide) (by decide)⟩

/-! ## Claim C6: the committed pickup is the lexicographic best -/

/-- C6: whenever the simulator selects a pickup candidate, that candidate
is a feasible order (not picked or delivered, fits the remaining capacity,
respects the LIFO due-time rule against the stack top), its projected
arrival is `max(order arrival, vehicle clock)` plus the travel time from
the vehicle's location to the pickup plant, it minimizes (due time,
projected arrival) lexicographically over all feasible candidates, and a
commit (free dock at the projected arrival) picks exactly this order: it is
pushed on the stack, marked picked, and the clock advances to arrival plus
service. -/
theorem C6_pickup_selection (cfg : SimConfig) (s : SimState) (veh : Vehicle)
    (c : Cand) (hc : selectCand (computeFeasible cfg s veh) = some c) :
    (c.key, c.ord) ∈ s.orders ∧ c.ord.picked = false ∧
    c.ord.delivered = false ∧ veh.load + c.ord.qty ≤ veh.capacity ∧
    (∀ topId, veh.stack.head? = some topId →
      ∀ topO, alookup s.orders topId = some topO → topO.due ≤ c.ord.due) ∧
    c.arr = max c.ord.arrival veh.time +
      travel_time cfg veh.location c.ord.pickup ∧
    (∀ d ∈ computeFeasible cfg s veh,
      c.ord.due < d.ord.due ∨ (c.ord.due = d.ord.due ∧ c.arr ≤ d.arr)) ∧
    (∀ untilTime vid, alookup s.vehicles vid = some veh →
      ¬untilTime < veh.time → deliveryTarget s veh = none →
      0 < (free_docks cfg s c.ord.pickup c.arr).1 →
      (stepVehicle cfg untilTime s vid).2 = true ∧
      alookup (stepVehicle cfg untilTime s vid).1.vehicles vid =
        some { veh with
          time := c.arr + (cfg.dock_service_time +
            cfg.unit_handling_time * (c.ord.qty : ℚ)),
          location := c.ord.pickup, load := veh.load + c.ord.qty,
          stack := c.ord.id :: veh.stack,
          route := veh.route ++ [(c.ord.pickup,
            c.arr + (cfg.dock_service_time +
              cfg.unit_handling_time * (c.ord.qty : ℚ)))] } ∧
      alookup (stepVehicle cfg untilTime s vid).1.orders c.key =
        some { c.ord with picked := true }) := by
  obtain ⟨hmem, hpk, hdl, hcap, hlifo, htt, harr⟩ :=
    mem_computeFeasible (selectCand_mem hc)
  refine ⟨hmem, hpk, hdl, hcap, hlifo, ?_, selectCand_min hc, ?_⟩
  · rw [harr, htt]
    by_cases h : veh.time < c.ord.arrival
    · rw [if_pos h, max_eq_left (le_of_lt h)]
    · rw [if_neg h, max_eq_right (not_lt.1 h)]
  · intro untilTime vid hv ht hd hfd
    rw [stepVehicle_eq_act hv ht]
    simp only []
    refine ⟨trivial, ?_⟩
    unfold stepVehicleAux
    rw [hd]
    simp only []
    rw [hc]
    simp only []
    unfold pickupAttempt
    have hfd' : ¬(free_docks cfg s
        ({ veh with time := c.arr, location := c.ord.pickup } : Vehicle).location
        ({ veh with time := c.arr, location := c.ord.pickup } : Vehicle).time).1 ≤ 0 :=
      not_le.2 hfd
    rw [if_neg hfd']
    constructor
    · show alookup (aset s.vehicles vid _) vid = _
      rw [alookup_aset_self]
    · show alookup (aset s.orders c.key _) c.key = _
      rw [alookup_aset_self]

/-- C6, witness at the first pickup of the `exCfg` scenario. -/
theorem C6_witness :
    (selectCand (computeFeasible exCfg exState exVeh1) = some exCand1) ∧
    ((exCand1.key, exCand1.ord) ∈ exState.orders ∧
      exCand1.ord.picked = false ∧ exCand1.ord.delivered = false ∧
      exVeh1.load + exCand1.ord.qty ≤ exVeh1.capacity ∧
      (∀ topId, exVeh1.stack.head? = some topId →
        ∀ topO, alookup exState.orders topId = some topO →
          topO.due ≤ exCand1.ord.due) ∧
      exCand1.arr = max exCand1.ord.arrival exVeh1.time +
        travel_time exCfg exVeh1.location exCand1.ord.pickup ∧
      (∀ d ∈ computeFeasible exCfg exState exVeh1,
        exCand1.ord.due < d.ord.due ∨
          (exCand1.ord.due = d.ord.due ∧ exCand1.arr ≤ d.arr)) ∧
      (∀ untilTime vid, alookup exState.vehicles vid = some exVeh1 →
        ¬untilTime < exVeh1.time → deliveryTarget exState exVeh1 = none →
        0 < (free_docks exCfg exState exCand1.ord.pickup exCand1.arr).1 →
        (stepVehicle exCfg untilTime exState vid).2 = true ∧
        alookup (stepVehicle exCfg untilTime exState vid).1.vehicles vid =
          some { exVeh1 with
            time := exCand1.arr + (exCfg.dock_service_time +
              exCfg.unit_handling_time * (exCand1.ord.qty : ℚ)),
            location := exCand1.ord.pickup,
            load := exVeh1.load + exCand1.ord.qty,
            stack := exCand1.ord.id :: exVeh1.stack,
            route := exVeh1.route ++ [(exCand1.ord.pickup,
              exCand1.arr + (exCfg.dock_service_time +
                exCfg.unit_handling_time * (exCand1.ord.qty : ℚ)))] } ∧
        alookup (stepVehicle exCfg untilTime exState vid).1.orders
            exCand1.key = some { exCand1.ord with picked := true })) :=
  ⟨by decide, C6_pickup_selection exCfg exState exVeh1 exCand1 (by decide)⟩

/-! ## Claim C7: dock capacity is never exceeded -/

theorem dockInv_free_docks {cfg : SimConfig} {s : SimState} {pid : Nat}
    {t : ℚ} (h : dockInv cfg s) : dockInv cfg (free_docks cfg s pid t).2 := by
  intro p hp
  have hp' : p ∈ aset s.dock_occupancy pid
      (((alookup s.dock_occupancy pid).getD []).filter
        (fun e => decide (t < e.2))) := hp
  rcases mem_aset hp' with h' | rfl
  · exact h p h'
  · show ((((alookup s.dock_occupancy pid).getD []).filter
      (fun e => decide (t < e.2))).length) ≤ plantDocks cfg pid
    rcases hl : alookup s.dock_occupancy pid with _ | occ0
    · simp
    · exact le_trans (List.length_filter_le _ _) (h (pid, occ0) (alookup_mem hl))

theorem dockInv_occupy {cfg : SimConfig} {s : SimState} {pid vehId : Nat}
    {t : ℚ} (h : dockInv cfg s)
    (hg : ((alookup s.dock_occupancy pid).getD []).length + 1 ≤
      plantDocks cfg pid) :
    dockInv cfg (occupy_dock s pid vehId t) := by
  intro p hp
  have hp' : p ∈ aset s.dock_occupancy pid
      (((alookup s.dock_occupancy pid).getD []) ++ [(vehId, t)]) := hp
  rcases mem_aset hp' with h' | rfl
  · exact h p h'
  · show (((alookup s.dock_occupancy pid).getD []) ++ [(vehId, t)]).length ≤ _
    rw [List.length_append]
    simpa using hg

/-- The guard `free > 0` after pruning bounds the pruned list strictly. -/
theorem occupy_guard_of_free {cfg : SimConfig} {s : SimState} {pid : Nat}
    {t : ℚ} (hfd : ¬(free_docks cfg s pid t).1 ≤ 0) :
    ((alookup (free_docks cfg s pid t).2.dock_occupancy pid).getD []).length + 1 ≤
      plantDocks cfg pid := by
  have hl : alookup (free_docks cfg s pid t).2.dock_occupancy pid =
      some (((alookup s.dock_occupancy pid).getD []).filter
        (fun e => decide (t < e.2))) := alookup_aset_self _ _ _
  rw [hl]
  have hfd' : ¬(max 0 ((plantDocks cfg pid : Int) -
      ((((alookup s.dock_occupancy pid).getD []).filter
        (fun e => decide (t < e.2))).length : Int)) ≤ 0) := hfd
  simp only [Option.getD_some]
  omega

theorem dockInv_deliverAttempt {cfg : SimConfig} {s : SimState} {vid : Nat}
    {veh : Vehicle} {topId : Nat} {topO : Order} (h : dockInv cfg s) :
    dockInv cfg (deliverAttempt cfg s vid veh topId topO) := by
  unfold deliverAttempt
  by_cases hfd : (free_docks cfg s veh.location veh.time).1 ≤ 0
  · rw [if_pos hfd]
    exact dockInv_free_docks h
  · rw [if_neg hfd]
    exact dockInv_occupy (dockInv_free_docks h) (occupy_guard_of_free hfd)

theorem dockInv_pickupAttempt {cfg : SimConfig} {s : SimState} {vid : Nat}
    {veh : Vehicle} {c : Cand} (h : dockInv cfg s) :
    dockInv cfg (pickupAttempt cfg s vid veh c) := by
  unfold pickupAttempt
  by_cases hfd : (free_docks cfg s c.ord.pickup c.arr).1 ≤ 0
  · rw [if_pos hfd]
    exact dockInv_free_docks h
  · rw [if_neg hfd]
    exact dockInv_occupy (dockInv_free_docks h) (occupy_guard_of_free hfd)

theorem dock_fallback (cfg : SimConfig) (s : SimState) (vid : Nat)
    (veh : Vehicle) :
    (fallback cfg s vid veh).dock_occupancy = s.dock_occupancy := by
  unfold fallback
  rcases veh.stack with _ | ⟨topId, rest⟩
  · rfl
  · simp only []
    rcases h : alookup s.orders topId with _ | topO
    · rfl
    · simp only []
      by_cases he : veh.location ≠ topO.delivery
      · rw [if_pos he]
        rfl
      · rw [if_neg he]
        rfl

theorem dockInv_stepVehicle {cfg : SimConfig} {untilTime : ℚ} {s : SimState}
    {vid : Nat} (h : dockInv cfg s) :
    dockInv cfg (stepVehicle cfg untilTime s vid).1 := by
  rcases hv : alookup s.vehicles vid with _ | veh
  · rw [stepVehicle_eq_skip_none hv]
    exact h
  · by_cases ht : untilTime < veh.time
    · rw [stepVehicle_eq_skip_late hv ht]
      exact h
    · rw [stepVehicle_eq_act hv ht]
      show dockInv cfg (stepVehicleAux cfg s vid veh)
      unfold stepVehicleAux
      rcases hd : deliveryTarget s veh with _ | ⟨topId, topO⟩
      · simp only []
        rcases hc : selectCand (computeFeasible cfg s veh) with _ | c
        · simp only []
          intro p hp
          rw [dock_fallback] at hp
          exact h p hp
        · simp only []
          exact dockInv_pickupAttempt h
      · simp only []
        exact dockInv_deliverAttempt h

theorem dockInv_reset (cfg : SimConfig) (orders : List (Nat × Order))
    (vehicles : List (Nat × Vehicle)) :
    dockInv cfg (resetState cfg orders vehicles) := by
  intro p hp
  obtain ⟨q, _, rfl⟩ := List.mem_map.1 hp
  exact Nat.zero_le _

theorem runPass_fst_eq_stepSeq (cfg : SimConfig) (untilTime : ℚ)
    (s : SimState) :
    (runPass cfg untilTime s).1 = stepSeq cfg untilTime (passIds s) s := by
  unfold runPass stepSeq
  generalize passIds s = ids
  suffices h : ∀ (ids : List Nat) (acc : SimState × Bool),
      ((ids.foldl (fun acc vid =>
        let r := stepVehicle cfg untilTime acc.1 vid
        (r.1, acc.2 || r.2)) acc).1) =
      ids.foldl (fun st vid => (stepVehicle cfg untilTime st vid).1) acc.1 by
    exact h ids (s, false)
  intro ids
  induction ids with
  | nil => intro acc; rfl
  | cons hd tl ih =>
    intro acc
    simp only [List.foldl]
    exact ih _

theorem simLoop_eq_stepSeq (cfg : SimConfig) (untilTime : ℚ) :
    ∀ (n : Nat) (s : SimState), ∃ ids,
      simLoop cfg untilTime n s = stepSeq cfg untilTime ids s := by
  intro n
  induction n with
  | zero => exact fun s => ⟨[], rfl⟩
  | succ n ih =>
    intro s
    unfold simLoop
    by_cases hu : hasUndelivered untilTime s
    · simp only [if_pos hu]
      by_cases hp : (runPass cfg untilTime s).2
      · simp only [if_pos hp]
        obtain ⟨ids', hids'⟩ := ih (runPass cfg untilTime s).1
        refine ⟨passIds s ++ ids', ?_⟩
        rw [hids', runPass_fst_eq_stepSeq]
        unfold stepSeq
        rw [List.foldl_append]
      · simp only [if_neg hp]
        exact ⟨passIds s, runPass_fst_eq_stepSeq cfg untilTime s⟩
    · simp only [if_neg hu]
      exact ⟨[], rfl⟩

/-- C7: at every reachable state of a run — `stepSeq` enumerates every
state any sequence of vehicle considerations can produce from the reset
state, and every state the outer loop reaches is such a state — each
plant's count of active reservations (release time strictly after the query
time) never exceeds its dock count; and every capacity query stores back
the pruned reservation list of the queried plant before counting. -/
theorem C7_dock_capacity (cfg : SimConfig) (untilTime : ℚ)
    (orders : List (Nat × Order)) (vehicles : List (Nat × Vehicle)) :
    (∀ ids, ∀ p ∈ (stepSeq cfg untilTime ids
        (resetState cfg orders vehicles)).dock_occupancy,
      ∀ t : ℚ, ((p.2.filter (fun e => decide (t < e.2))).length) ≤
        plantDocks cfg p.1) ∧
    (∀ n, ∃ ids, simLoop cfg untilTime n (resetState cfg orders vehicles) =
      stepSeq cfg untilTime ids (resetState cfg orders vehicles)) ∧
    (∀ s pid t, alookup (free_docks cfg s pid t).2.dock_occupancy pid =
        some (((alookup s.dock_occupancy pid).getD []).filter
          (fun e => decide (t < e.2))) ∧
      (free_docks cfg s pid t).1 = max 0 ((plantDocks cfg pid : Int) -
        ((((alookup s.dock_occupancy pid).getD []).filter
          (fun e => decide (t < e.2))).length : Int))) := by
  refine ⟨?_, fun n => simLoop_eq_stepSeq cfg untilTime n _, ?_⟩
  · intro ids p hp t
    have hinv : dockInv cfg (stepSeq cfg untilTime ids
        (resetState cfg orders vehicles)) :=
      stepSeq_preserves (fun _ _ => dockInv_stepVehicle) ids
        (dockInv_reset cfg orders vehicles)
    exact le_trans (List.length_filter_le _ _) (hinv p hp)
  · intro s pid t
    exact ⟨alookup_aset_self _ _ _, rfl⟩

/-- C7, witness: the reservation the first vehicle of the dock-race
scenario takes at plant 2 stays within that plant's single dock. -/
theorem C7_witness :
    (((2 : Nat), [((1 : Nat), (12 : ℚ))]) ∈
      (stepSeq dockCfg 1440 [1] (resetState dockCfg dockOrders
        dockVehicles)).dock_occupancy) ∧
    ((([((1 : Nat), (12 : ℚ))]).filter
      (fun e => decide ((5 : ℚ) < e.2))).length) ≤ plantDocks dockCfg 2 :=
  ⟨by decide,
   (C7_dock_capacity dockCfg 1440 dockOrders dockVehicles).1 [1]
     (2, [(1, 12)]) (by decide) 5⟩

/-- C8: across any run of the optimizer's loop the best-known cost is
non-increasing round by round, and the cost finally returned by `optimize`
never exceeds the cost of evaluating the initial order set. -/
theorem C8_optimizer_monotone (oc : OptCfg) (picks : List RoundPicks)
    (orders : List (Nat × Order)) :
    (optimize oc picks orders).1 ≤ (evaluate oc orders).1 ∧
    (∀ st p, match optRound oc st p with
      | some st' => st'.best_cost ≤ st.best_cost
      | none => True) := by
  constructor
  · exact optGo_le oc picks _
  · intro st p
    rcases hr : optRound oc st p with _ | st'
    · trivial
    · exact optRound_le hr

/-- C1, witness for the amended theorem on the concrete two-order set. -/
theorem C1_witness :
    ((exOrders.map Prod.fst).Nodup ∧ alookup exOrders 1 = some exO1 ∧
      alookup exOrders 2 = some exO2 ∧ (1 : Nat) ≠ 2) ∧
    ((∀ k, alookup (block_relocate exOrders 1 2) k = alookup exOrders k) ∧
      alookup (block_exchange exOrders 1 2) 1 = some exO2 ∧
      alookup (block_exchange exOrders 1 2) 2 = some exO1 ∧
      (∀ k, k ≠ 1 → k ≠ 2 →
        alookup (block_exchange exOrders 1 2) k = alookup exOrders k)) :=
  ⟨⟨by decide, rfl, rfl, by decide⟩,
   C1_operators_on_map exOrders 1 2 exO1 exO2 (by decide) rfl rfl (by decide)⟩

/-! ## Claim C9: delivery causality

The claim fails on the source as stated, because the travel-time table is
arbitrary: with a non-metric table a vehicle can reach an order's delivery
plant through intermediate stops faster than the direct oracle travel time
from its pickup plant.  Under the metric hypotheses `C9Hyp` (triangle
inequality and nonnegativity of the derived oracle, nonnegative service
parameters) and well-formed orders the claim holds; the proof threads the
invariant `C9Inv` through every vehicle step. -/

theorem stackEntryOk_congr {cfg : SimConfig} {s s' : SimState} {v : Vehicle}
    {oid : Nat}
    (ho : alookup s'.orders oid = alookup s.orders oid)
    (hg : alookup s'.ghostPick oid = alookup s.ghostPick oid)
    (h : stackEntryOk cfg s v oid) : stackEntryOk cfg s' v oid := by
  obtain ⟨o, ho1, hpk, hdl, pf, hpf, hpos⟩ := h
  exact ⟨o, by rw [ho, ho1], hpk, hdl, pf, by rw [hg, hpf], hpos⟩

theorem stackEntryOk_mono {cfg : SimConfig} {s : SimState} {v w : Vehicle}
    {oid : Nat} (h : stackEntryOk cfg s v oid)
    (hloc : w.location = v.location) (ht : v.time ≤ w.time) :
    stackEntryOk cfg s w oid := by
  obtain ⟨o, ho, hpk, hdl, pf, hpf, hpos⟩ := h
  refine ⟨o, ho, hpk, hdl, pf, hpf, ?_⟩
  rcases hpos with h' | ⟨h1, h2⟩
  · exact Or.inl (by rw [hloc]; exact le_trans h' ht)
  · exact Or.inr ⟨by rw [hloc]; exact h1, le_trans h2 ht⟩

theorem stackEntryOk_move {cfg : SimConfig} (hyp : C9Hyp cfg)
    {s : SimState} {v w : Vehicle} {oid : Nat}
    (h : stackEntryOk cfg s v oid)
    (ht : v.time + travel_time cfg v.location w.location ≤ w.time) :
    stackEntryOk cfg s w oid := by
  obtain ⟨o, ho, hpk, hdl, pf, hpf, hpos⟩ := h
  refine ⟨o, ho, hpk, hdl, pf, hpf, Or.inl ?_⟩
  rcases hpos with h' | ⟨h1, h2⟩
  · calc pf + travel_time cfg o.pickup w.location
        ≤ pf + (travel_time cfg o.pickup v.location +
            travel_time cfg v.location w.location) :=
          add_le_add_left (hyp.tri o.pickup v.location w.location) pf
      _ = (pf + travel_time cfg o.pickup v.location) +
            travel_time cfg v.location w.location := by ring
      _ ≤ v.time + travel_time cfg v.location w.location :=
          add_le_add_right h' _
      _ ≤ w.time := ht
  · rw [← h1]
    calc pf + travel_time cfg v.location w.location
        ≤ v.time + travel_time cfg v.location w.location :=
          add_le_add_right h2 _
      _ ≤ w.time := ht

theorem deliveryTarget_some {s : SimState} {veh : Vehicle} {topId : Nat}
    {topO : Order} (h : deliveryTarget s veh = some (topId, topO)) :
    veh.stack.head? = some topId ∧ alookup s.orders topId = some topO ∧
    veh.location = topO.delivery := by
  unfold deliveryTarget at h
  rcases hstk : veh.stack with _ | ⟨t, rest⟩
  · rw [hstk] at h
    cases h
  · rw [hstk] at h
    simp only [] at h
    rcases hlo : alookup s.orders t with _ | o
    · rw [hlo] at h
      simp only [] at h
      cases h
    · rw [hlo] at h
      simp only [] at h
      by_cases he : veh.location = o.delivery
      · rw [if_pos he] at h
        have h1 : t = topId := congrArg Prod.fst (Option.some.inj h)
        have h2 : o = topO := congrArg Prod.snd (Option.some.inj h)
        subst h1
        subst h2
        exact ⟨rfl, hlo, he⟩
      · rw [if_neg he] at h
        cases h

theorem pairwise_trivial {α : Type} {R : α → α → Prop}
    (hr : ∀ a b, R a b) : ∀ (l : List α), l.Pairwise R := by
  intro l
  induction l with
  | nil => exact List.Pairwise.nil
  | cons hd tl ih => exact List.Pairwise.cons (fun b _ => hr hd b) ih

/-- Preservation helper for the branches in which the processed vehicle
keeps its stack and the orders map, ghost log and other vehicles are
untouched. -/
theorem C9Inv_updVeh_same_stack {cfg : SimConfig} {s : SimState} {vid : Nat}
    {veh w : Vehicle} (h : C9Inv cfg s)
    (hv : alookup s.vehicles vid = some veh)
    (hw : w.stack = veh.stack)
    (hok : ∀ oid ∈ veh.stack, stackEntryOk cfg s w oid) :
    C9Inv cfg (updVeh s vid w) := by
  refine ⟨h.ordKey, h.ordNd, ?_, h.dtDel, h.delOk, ?_, ?_, ?_⟩
  · show ((aset s.vehicles vid w).map Prod.fst).Nodup
    rw [keys_aset w hv]
    exact h.vehNd
  · intro q hq oid hoid
    rcases mem_aset_nodup h.vehNd hv hq with ⟨hq', _⟩ | rfl
    · exact h.stkOk q hq' oid hoid
    · exact hok oid (hw ▸ hoid)
  · intro q hq
    rcases mem_aset_nodup h.vehNd hv hq with ⟨hq', _⟩ | rfl
    · exact h.stkNd q hq'
    · show w.stack.Nodup
      rw [hw]
      exact h.stkNd (vid, veh) (alookup_mem hv)
  · refine pairwise_aset_nodup h.vehNd hv h.disj ?_ ?_
    · intro p hp hpk oid hc
      have hd := disj_get h.disj hp (alookup_mem hv) hpk
      exact hd oid ⟨hc.1, hw ▸ hc.2⟩
    · intro p hp hpk oid hc
      have hd := disj_get h.disj hp (alookup_mem hv) hpk
      exact hd oid ⟨hc.2, hw ▸ hc.1⟩

theorem C9Inv_congr {cfg : SimConfig} {s s' : SimState}
    (ho : s'.orders = s.orders) (hveh : s'.vehicles = s.vehicles)
    (hg : s'.ghostPick = s.ghostPick) (h : C9Inv cfg s) : C9Inv cfg s' := by
  refine ⟨?_, ?_, ?_, ?_, ?_, ?_, ?_, ?_⟩
  · intro p hp
    exact h.ordKey p (ho ▸ hp)
  · rw [ho]
    exact h.ordNd
  · rw [hveh]
    exact h.vehNd
  · intro p hp
    exact h.dtDel p (ho ▸ hp)
  · intro p hp dt hdt
    obtain ⟨pf, hpf, hk⟩ := h.delOk p (ho ▸ hp) dt hdt
    exact ⟨pf, by rw [hg]; exact hpf, hk⟩
  · intro q hq oid hoid
    exact stackEntryOk_congr (by rw [ho]) (by rw [hg])
      (h.stkOk q (hveh ▸ hq) oid hoid)
  · intro q hq
    exact h.stkNd q (hveh ▸ hq)
  · rw [hveh]
    exact h.disj

theorem C9Inv_deliver_core {cfg : SimConfig}
    {s : SimState} {vid : Nat} {veh : Vehicle} {topId : Nat} {topO : Order}
    {rest : List Nat} {finish : ℚ} (d : List (Nat × List (Nat × ℚ)))
    (h : C9Inv cfg s)
    (hv : alookup s.vehicles vid = some veh)
    (hlo : alookup s.orders topId = some topO)
    (hstk : veh.stack = topId :: rest)
    (hloc : veh.location = topO.delivery)
    (hfin : veh.time ≤ finish) :
    C9Inv cfg { orders := aset s.orders topId { topO with delivered := true, delivered_time := some finish }, vehicles := aset s.vehicles vid { veh with time := finish, load := veh.load - topO.qty, stack := veh.stack.tail, route := veh.route ++ [(veh.location, finish)] }, dock_occupancy := d, ghostPick := s.ghostPick } := by
  have hmemVeh : (vid, veh) ∈ s.vehicles := alookup_mem hv
  have hmemOrd : (topId, topO) ∈ s.orders := alookup_mem hlo
  have hpd : topO.pickup ≠ topO.delivery :=
    (h.ordKey (topId, topO) hmemOrd).2.2
  have hid : topO.id = topId := (h.ordKey (topId, topO) hmemOrd).1
  obtain ⟨o0, ho0, hpk0, hdl0, pf, hpf, hpos⟩ :=
    h.stkOk (vid, veh) hmemVeh topId (hstk ▸ List.mem_cons_self _ _)
  have ho0' : o0 = topO := Option.some.inj (ho0.symm.trans hlo)
  subst ho0'
  have hkey : pf + travel_time cfg o0.pickup o0.delivery ≤ finish := by
    rcases hpos with h' | ⟨h1, h2⟩
    · rw [hloc] at h'
      linarith
    · exact absurd (h1.symm.trans hloc) hpd
  refine ⟨?_, ?_, ?_, ?_, ?_, ?_, ?_, ?_⟩
  · intro p hp
    rcases mem_aset hp with h' | rfl
    · exact h.ordKey p h'
    · exact ⟨hid, (h.ordKey (topId, o0) hmemOrd).2.1, hpd⟩
  · show ((aset s.orders topId _).map Prod.fst).Nodup
    rw [keys_aset _ hlo]
    exact h.ordNd
  · show ((aset s.vehicles vid _).map Prod.fst).Nodup
    rw [keys_aset _ hv]
    exact h.vehNd
  · intro p hp
    rcases mem_aset hp with h' | rfl
    · exact h.dtDel p h'
    · intro hsome
      rfl
  · intro p hp dt hdt
    rcases mem_aset hp with h' | rfl
    · exact h.delOk p h' dt hdt
    · refine ⟨pf, hpf, ?_⟩
      have hdt' : finish = dt := Option.some.inj hdt
      rw [← hdt']
      exact hkey
  · intro q hq oid hoid
    rcases mem_aset_nodup h.vehNd hv hq with ⟨hq', hqne⟩ | rfl
    · have hdisj := disj_get h.disj hq' hmemVeh hqne
      have hne : oid ≠ topId := by
        intro hh
        exact hdisj oid ⟨hoid, hh ▸ hstk ▸ List.mem_cons_self _ _⟩
      exact stackEntryOk_congr (alookup_aset_ne _ _ hne) rfl
        (h.stkOk q hq' oid hoid)
    · have hoid' : oid ∈ rest := by
        have htl : veh.stack.tail = rest := by
          rw [hstk]
          rfl
        exact htl ▸ hoid
      have hne : oid ≠ topId := by
        intro hh
        have hnd' := h.stkNd (vid, veh) hmemVeh
        rw [hstk] at hnd'
        exact (List.nodup_cons.1 hnd').1 (hh ▸ hoid')
      have hold := h.stkOk (vid, veh) hmemVeh oid
        (hstk ▸ List.mem_cons_of_mem _ hoid')
      exact stackEntryOk_mono
        (stackEntryOk_congr (alookup_aset_ne _ _ hne) rfl hold) rfl hfin
  · intro q hq
    rcases mem_aset_nodup h.vehNd hv hq with ⟨hq', _⟩ | rfl
    · exact h.stkNd q hq'
    · show veh.stack.tail.Nodup
      rw [hstk]
      exact (List.nodup_cons.1 (hstk ▸ h.stkNd (vid, veh) hmemVeh)).2
  · refine pairwise_aset_nodup h.vehNd hv h.disj ?_ ?_
    · intro p hp hpk oid hc
      have hdisj := disj_get h.disj hp hmemVeh hpk
      exact hdisj oid ⟨hc.1, List.tail_subset _ hc.2⟩
    · intro p hp hpk oid hc
      have hdisj := disj_get h.disj hp hmemVeh hpk
      exact hdisj oid ⟨hc.2, List.tail_subset _ hc.1⟩

theorem C9Inv_pickup_core {cfg : SimConfig} (hyp : C9Hyp cfg)
    {s : SimState} {vid : Nat} {veh : Vehicle} {c : Cand} {finish : ℚ}
    (d : List (Nat × List (Nat × ℚ)))
    (h : C9Inv cfg s)
    (hv : alookup s.vehicles vid = some veh)
    (hc : selectCand (computeFeasible cfg s veh) = some c)
    (hfin : veh.time + travel_time cfg veh.location c.ord.pickup ≤ finish) :
    C9Inv cfg { orders := aset s.orders c.key { c.ord with picked := true }, vehicles := aset s.vehicles vid { veh with time := finish, location := c.ord.pickup, load := veh.load + c.ord.qty, stack := c.ord.id :: veh.stack, route := veh.route ++ [(c.ord.pickup, finish)] }, dock_occupancy := d, ghostPick := aset s.ghostPick c.ord.id finish } := by
  obtain ⟨hmem, hpk, hdl, hcap, hlifo, htt, harr⟩ :=
    mem_computeFeasible (selectCand_mem hc)
  have hmemVeh : (vid, veh) ∈ s.vehicles := alookup_mem hv
  have hwf := h.ordKey (c.key, c.ord) hmem
  have ckey : c.ord.id = c.key := hwf.1
  have hlu : alookup s.orders c.key = some c.ord :=
    alookup_eq_of_mem_nodup h.ordNd hmem
  have fresh : ∀ q ∈ s.vehicles, c.ord.id ∉ q.2.stack := by
    intro q hq hin
    obtain ⟨o2, ho2, hpk2, _⟩ := h.stkOk q hq _ hin
    rw [ckey, hlu] at ho2
    have he : c.ord = o2 := Option.some.inj ho2
    rw [← he, hpk] at hpk2
    exact absurd hpk2 (by simp)
  have hdtnone : c.ord.delivered_time = none := by
    cases hdto : c.ord.delivered_time with
    | none => rfl
    | some t =>
      have hdel := h.dtDel (c.key, c.ord) hmem (by rw [hdto]; rfl)
      rw [hdl] at hdel
      exact absurd hdel (by simp)
  refine ⟨?_, ?_, ?_, ?_, ?_, ?_, ?_, ?_⟩
  · intro p hp
    rcases mem_aset hp with h' | rfl
    · exact h.ordKey p h'
    · exact ⟨ckey, hwf.2.1, hwf.2.2⟩
  · show ((aset s.orders c.key _).map Prod.fst).Nodup
    rw [keys_aset _ hlu]
    exact h.ordNd
  · show ((aset s.vehicles vid _).map Prod.fst).Nodup
    rw [keys_aset _ hv]
    exact h.vehNd
  · intro p hp
    rcases mem_aset hp with h' | rfl
    · exact h.dtDel p h'
    · intro hs'
      have hs'' : c.ord.delivered_time.isSome = true := hs'
      rw [hdtnone] at hs''
      exact absurd hs'' (by simp)
  · intro p hp dt hdt
    rcases mem_aset hp with h' | rfl
    · by_cases hpe : p.1 = c.ord.id
      · have hlp : alookup s.orders p.1 = some p.2 :=
          alookup_eq_of_mem_nodup h.ordNd h'
        rw [hpe, ckey, hlu] at hlp
        have hp2 : c.ord = p.2 := Option.some.inj hlp
        rw [← hp2, hdtnone] at hdt
        cases hdt
      · obtain ⟨pf, hpf, hk⟩ := h.delOk p h' dt hdt
        refine ⟨pf, ?_, hk⟩
        show alookup (aset s.ghostPick c.ord.id finish) p.1 = some pf
        rw [alookup_aset_ne _ _ hpe]
        exact hpf
    · have hdt' : c.ord.delivered_time = some dt := hdt
      rw [hdtnone] at hdt'
      cases hdt'
  · intro q hq oid hoid
    rcases mem_aset_nodup h.vehNd hv hq with ⟨hq', hqne⟩ | rfl
    · have hne : oid ≠ c.ord.id := by
        intro hh
        exact fresh q hq' (hh ▸ hoid)
      have hnek : oid ≠ c.key := by
        rw [← ckey]
        exact hne
      refine stackEntryOk_congr ?_ ?_ (h.stkOk q hq' oid hoid)
      · show alookup (aset s.orders c.key _) oid = alookup s.orders oid
        exact alookup_aset_ne _ _ hnek
      · show alookup (aset s.ghostPick c.ord.id finish) oid =
          alookup s.ghostPick oid
        exact alookup_aset_ne _ _ hne
    · rcases List.mem_cons.1 hoid with rfl | hin
      · refine ⟨{ c.ord with picked := true }, ?_, rfl, hdl, finish, ?_, ?_⟩
        · show alookup (aset s.orders c.key { c.ord with picked := true }) c.ord.id = some { c.ord with picked := true }
          rw [ckey]
          exact alookup_aset_self _ _ _
        · show alookup (aset s.ghostPick c.ord.id finish) c.ord.id = some finish
          exact alookup_aset_self _ _ _
        · exact Or.inr ⟨rfl, le_refl _⟩
      · have hne : oid ≠ c.ord.id := by
          intro hh
          exact fresh (vid, veh) hmemVeh (hh ▸ hin)
        have hnek : oid ≠ c.key := by
          rw [← ckey]
          exact hne
        have hold := h.stkOk (vid, veh) hmemVeh oid hin
        refine stackEntryOk_move hyp (stackEntryOk_congr ?_ ?_ hold) ?_
        · show alookup (aset s.orders c.key _) oid = alookup s.orders oid
          exact alookup_aset_ne _ _ hnek
        · show alookup (aset s.ghostPick c.ord.id finish) oid =
            alookup s.ghostPick oid
          exact alookup_aset_ne _ _ hne
        · exact hfin
  · intro q hq
    rcases mem_aset_nodup h.vehNd hv hq with ⟨hq', _⟩ | rfl
    · exact h.stkNd q hq'
    · exact List.nodup_cons.2 ⟨fresh (vid, veh) hmemVeh,
        h.stkNd (vid, veh) hmemVeh⟩
  · refine pairwise_aset_nodup h.vehNd hv h.disj ?_ ?_
    · intro p hp hpk' oid hc'
      rcases List.mem_cons.1 hc'.2 with rfl | hin
      · exact fresh p hp hc'.1
      · exact disj_get h.disj hp hmemVeh hpk' oid ⟨hc'.1, hin⟩
    · intro p hp hpk' oid hc'
      rcases List.mem_cons.1 hc'.1 with rfl | hin
      · exact fresh p hp hc'.2
      · exact disj_get h.disj hp hmemVeh hpk' oid ⟨hc'.2, hin⟩

theorem C9Inv_pickupAttempt {cfg : SimConfig} {s : SimState} {vid : Nat}
    {veh : Vehicle} {c : Cand} (hyp : C9Hyp cfg) (h : C9Inv cfg s)
    (hv : alookup s.vehicles vid = some veh)
    (hc : selectCand (computeFeasible cfg s veh) = some c) :
    C9Inv cfg (pickupAttempt cfg s vid veh c) := by
  obtain ⟨hmem, hpk, hdl, hcap, hlifo, htt, harr⟩ :=
    mem_computeFeasible (selectCand_mem hc)
  have hmemVeh : (vid, veh) ∈ s.vehicles := alookup_mem hv
  have hqty : (0 : ℚ) ≤ (c.ord.qty : ℚ) := by
    exact_mod_cast (h.ordKey (c.key, c.ord) hmem).2.1
  have hserv : (0 : ℚ) ≤ cfg.dock_service_time +
      cfg.unit_handling_time * (c.ord.qty : ℚ) :=
    add_nonneg hyp.dst (mul_nonneg hyp.uht hqty)
  have hearl : veh.time ≤
      (if veh.time < c.ord.arrival then c.ord.arrival else veh.time) := by
    split_ifs with hh
    · exact le_of_lt hh
    · exact le_refl _
  have hdrive : veh.time + travel_time cfg veh.location c.ord.pickup ≤
      c.arr := by
    rw [harr, htt]
    linarith
  unfold pickupAttempt
  simp only []
  by_cases hfd : (free_docks cfg s c.ord.pickup c.arr).1 ≤ 0
  · simp only [if_pos hfd]
    refine C9Inv_congr ?_ ?_ ?_ (C9Inv_updVeh_same_stack h hv (rfl : ({ veh with time := c.arr + 1, location := c.ord.pickup } : Vehicle).stack = veh.stack) ?_)
    · rfl
    · rfl
    · rfl
    · intro oid hoid
      refine stackEntryOk_move hyp (h.stkOk (vid, veh) hmemVeh oid hoid) ?_
      show veh.time + travel_time cfg veh.location c.ord.pickup ≤ c.arr + 1
      linarith
  · simp only [if_neg hfd]
    have hfin : veh.time + travel_time cfg veh.location c.ord.pickup ≤
        c.arr + (cfg.dock_service_time +
          cfg.unit_handling_time * (c.ord.qty : ℚ)) := by linarith
    refine C9Inv_congr ?_ ?_ ?_ (C9Inv_pickup_core hyp [] h hv hc hfin)
    · rfl
    · rfl
    · rfl

theorem C9Inv_fallback {cfg : SimConfig} {s : SimState} {vid : Nat}
    {veh : Vehicle} (hyp : C9Hyp cfg) (h : C9Inv cfg s)
    (hv : alookup s.vehicles vid = some veh) :
    C9Inv cfg (fallback cfg s vid veh) := by
  have hmemVeh : (vid, veh) ∈ s.vehicles := alookup_mem hv
  have hidle : ∀ w : Vehicle, w.stack = veh.stack → w.location = veh.location →
      veh.time ≤ w.time → C9Inv cfg (updVeh s vid w) := by
    intro w hw hl htv
    refine C9Inv_updVeh_same_stack h hv hw ?_
    intro oid hoid
    exact stackEntryOk_mono (h.stkOk (vid, veh) hmemVeh oid hoid) hl htv
  unfold fallback
  rcases hstk : veh.stack with _ | ⟨topId, rest⟩
  · refine hidle _ hstk.symm rfl ?_
    show veh.time ≤ veh.time + 1
    linarith
  · simp only []
    rcases hlo : alookup s.orders topId with _ | topO
    · refine hidle _ hstk.symm rfl ?_
      show veh.time ≤ veh.time + 1
      linarith
    · simp only []
      by_cases he : veh.location ≠ topO.delivery
      · rw [if_pos he]
        refine C9Inv_updVeh_same_stack h hv hstk.symm ?_
        intro oid hoid
        refine stackEntryOk_move hyp (h.stkOk (vid, veh) hmemVeh oid hoid) ?_
        exact le_refl _
      · rw [if_neg he]
        refine hidle _ hstk.symm rfl ?_
        show veh.time ≤ veh.time + 1
        linarith

theorem C9Inv_deliverAttempt {cfg : SimConfig} {s : SimState} {vid : Nat}
    {veh : Vehicle} {topId : Nat} {topO : Order}
    (hyp : C9Hyp cfg) (h : C9Inv cfg s)
    (hv : alookup s.vehicles vid = some veh)
    (hd : deliveryTarget s veh = some (topId, topO)) :
    C9Inv cfg (deliverAttempt cfg s vid veh topId topO) := by
  obtain ⟨hhead, hlo, hloc⟩ := deliveryTarget_some hd
  obtain ⟨rest, hstk⟩ : ∃ rest, veh.stack = topId :: rest := by
    rcases hs : veh.stack with _ | ⟨t, r⟩
    · rw [hs] at hhead
      cases hhead
    · rw [hs] at hhead
      simp only [List.head?] at hhead
      exact ⟨r, by rw [Option.some.inj hhead]⟩
  have hmemVeh : (vid, veh) ∈ s.vehicles := alookup_mem hv
  have hmemOrd : (topId, topO) ∈ s.orders := alookup_mem hlo
  have hqty : (0 : ℚ) ≤ (topO.qty : ℚ) := by
    exact_mod_cast (h.ordKey (topId, topO) hmemOrd).2.1
  have hserv : (0 : ℚ) ≤ cfg.dock_service_time +
      cfg.unit_handling_time * (topO.qty : ℚ) :=
    add_nonneg hyp.dst (mul_nonneg hyp.uht hqty)
  unfold deliverAttempt
  by_cases hfd : (free_docks cfg s veh.location veh.time).1 ≤ 0
  · simp only [if_pos hfd]
    refine C9Inv_congr ?_ ?_ ?_ (C9Inv_updVeh_same_stack h hv (rfl : ({ veh with time := veh.time + 1 } : Vehicle).stack = veh.stack) ?_)
    · rfl
    · rfl
    · rfl
    · intro oid hoid
      refine stackEntryOk_mono (h.stkOk (vid, veh) hmemVeh oid hoid) rfl ?_
      show veh.time ≤ veh.time + 1
      linarith
  · simp only [if_neg hfd]
    have hfin : veh.time ≤ veh.time + (cfg.dock_service_time +
        cfg.unit_handling_time * (topO.qty : ℚ)) := by linarith
    refine C9Inv_congr ?_ ?_ ?_
      (C9Inv_deliver_core [] h hv hlo hstk hloc hfin)
    · rfl
    · rfl
    · rfl

theorem C9Inv_stepVehicle {cfg : SimConfig} {untilTime : ℚ} {s : SimState}
    {vid : Nat} (hyp : C9Hyp cfg) (h : C9Inv cfg s) :
    C9Inv cfg (stepVehicle cfg untilTime s vid).1 := by
  rcases hv : alookup s.vehicles vid with _ | veh
  · rw [stepVehicle_eq_skip_none hv]
    exact h
  · by_cases ht : untilTime < veh.time
    · rw [stepVehicle_eq_skip_late hv ht]
      exact h
    · rw [stepVehicle_eq_act hv ht]
      show C9Inv cfg (stepVehicleAux cfg s vid veh)
      unfold stepVehicleAux
      rcases hd : deliveryTarget s veh with _ | ⟨topId, topO⟩
      · simp only []
        rcases hc : selectCand (computeFeasible cfg s veh) with _ | c
        · simp only []
          exact C9Inv_fallback hyp h hv
        · simp only []
          exact C9Inv_pickupAttempt hyp h hv hc
      · simp only []
        exact C9Inv_deliverAttempt hyp h hv hd

theorem C9Inv_reset {cfg : SimConfig}
    (orders : List (Nat × Order)) (vehicles : List (Nat × Vehicle))
    (horders : ∀ p ∈ orders, ordWF p.2 p.1)
    (hond : (orders.map Prod.fst).Nodup)
    (hvnd : (vehicles.map Prod.fst).Nodup) :
    C9Inv cfg (resetState cfg orders vehicles) := by
  refine ⟨?_, ?_, ?_, ?_, ?_, ?_, ?_, ?_⟩
  · intro p hp
    obtain ⟨q, hq, rfl⟩ := List.mem_map.1 hp
    obtain ⟨h1, h2, h3⟩ := horders q hq
    exact ⟨h1, h2, h3⟩
  · show ((orders.map _).map Prod.fst).Nodup
    rw [List.map_map]
    exact hond
  · show ((vehicles.map _).map Prod.fst).Nodup
    rw [List.map_map]
    exact hvnd
  · intro p hp hsome
    obtain ⟨q, hq, rfl⟩ := List.mem_map.1 hp
    cases hsome
  · intro p hp dt hdt
    obtain ⟨q, hq, rfl⟩ := List.mem_map.1 hp
    cases hdt
  · intro q hq oid hoid
    obtain ⟨q', hq', rfl⟩ := List.mem_map.1 hq
    cases hoid
  · intro q hq
    obtain ⟨q', hq', rfl⟩ := List.mem_map.1 hq
    exact List.nodup_nil
  · show (vehicles.map _).Pairwise disjStacks
    rw [List.pairwise_map]
    refine pairwise_trivial ?_ vehicles
    intro a b oid hoid
    cases hoid.1

/-- C9 (amended): for every configuration whose derived travel-time oracle
is nonnegative and satisfies the triangle inequality and whose service-time
parameters are nonnegative, and for every well-keyed input (each order
stores its own key as id with nonnegative quantity and distinct pickup and
delivery plants; order and vehicle keys are duplicate-free), every order
delivered during the dispatch loop has a delivered-time at least the finish
time of that order's pickup service (as recorded in the ghost pickup log)
plus the oracle travel time from the order's pickup plant to its delivery
plant.  Without the metric hypotheses the property fails (see the
counterexample): the simulator charges the travel time of each actually
driven leg, so a non-metric table lets a stop-over undercut the direct
pickup-to-delivery travel time. -/
theorem C9_delivery_causality (cfg : SimConfig) (untilTime : ℚ)
    (orders : List (Nat × Order)) (vehicles : List (Nat × Vehicle))
    (hyp : C9Hyp cfg)
    (horders : ∀ p ∈ orders, ordWF p.2 p.1)
    (hond : (orders.map Prod.fst).Nodup)
    (hvnd : (vehicles.map Prod.fst).Nodup) :
    ∀ n, ∀ p ∈ (simLoop cfg untilTime n (resetState cfg orders vehicles)).orders,
      ∀ dt, p.2.delivered_time = some dt →
        ∃ pf, alookup (simLoop cfg untilTime n
            (resetState cfg orders vehicles)).ghostPick p.1 = some pf ∧
          pf + travel_time cfg p.2.pickup p.2.delivery ≤ dt := by
  intro n
  have hinv : C9Inv cfg (simLoop cfg untilTime n
      (resetState cfg orders vehicles)) :=
    simLoop_preserves (fun _ _ hh => C9Inv_stepVehicle hyp hh)
      (C9Inv_reset orders vehicles horders hond hvnd)
  exact hinv.delOk

/-- C9, counterexample to the unconditional claim: with the non-metric
travel-time table of `c9Cfg` (direct leg 1→3 costs 1000, the stop-over legs
1→2 and 2→3 cost 1 each), order 1 (pickup 1, delivery 3) finishes its
pickup at clock 1/30 yet is delivered at clock 61/30, far earlier than
pickup finish plus the direct travel time 1000. -/
theorem C9_counterexample :
    alookup (simLoop c9Cfg 1440 8 (resetState c9Cfg c9Orders c9Vehicles)).orders 1 =
      some { id := 1, pickup := 1, delivery := 3, qty := 1, arrival := 0,
             due := 10, picked := true, delivered := true,
             delivered_time := some (61/30) } ∧
    alookup (simLoop c9Cfg 1440 8 (resetState c9Cfg c9Orders c9Vehicles)).ghostPick 1 =
      some (1/30) ∧
    ¬((1 : ℚ)/30 + travel_time c9Cfg 1 3 ≤ 61/30) := by
  refine ⟨by decide, by decide, by decide⟩

theorem C9_witness :
    (C9Hyp cfgEmptyTables ∧ (∀ p ∈ wOrders, ordWF p.2 p.1) ∧
      (wOrders.map Prod.fst).Nodup ∧ (wVehicles.map Prod.fst).Nodup) ∧
    (∀ p ∈ (simLoop cfgEmptyTables 1440 50
        (resetState cfgEmptyTables wOrders wVehicles)).orders,
      ∀ dt, p.2.delivered_time = some dt →
        ∃ pf, alookup (simLoop cfgEmptyTables 1440 50
            (resetState cfgEmptyTables wOrders wVehicles)).ghostPick p.1 = some pf ∧
          pf + travel_time cfgEmptyTables p.2.pickup p.2.delivery ≤ dt) := by
  have htt : ∀ a b : Nat, travel_time cfgEmptyTables a b = 1/30 := fun a b => rfl
  have hyp : C9Hyp cfgEmptyTables := by
    refine ⟨?_, ?_, by decide, by decide⟩
    · intro a b c
      rw [htt, htt, htt]
      norm_num
    · intro a b
      rw [htt]
      norm_num
  have horders : ∀ p ∈ wOrders, ordWF p.2 p.1 := by
    intro p hp
    rw [List.mem_singleton.1 hp]
    exact ⟨rfl, by decide, by decide⟩
  have hond : (wOrders.map Prod.fst).Nodup := by decide
  have hvnd : (wVehicles.map Prod.fst).Nodup := by decide
  exact ⟨⟨hyp, horders, hond, hvnd⟩,
    C9_delivery_causality cfgEmptyTables 1440 wOrders wVehicles
      hyp horders hond hvnd 50⟩

end DVRP

